import Mathlib

/-!
Verification of the Seafile Home Assistant integration core logic.

This file gives a shallow embedding of the repository's core components
(`custom_components/seafile/updater.py`, `client.py`, `helper.py`,
`views.py`) and proves properties about them:

* the `SeafileUpdater.update` cycle state machine (snapshot dict, sticky
  reauthorization flag, first-cycle flag, dynamically registered sensor
  descriptors);
* the `SeafileClient._raise` error-message builder;
* the `is_valid_uuid`, `encode_path`, `decode_path` helpers;
* the `ThumbnailProxyView.get` HTTP handler.

Python dicts are modelled as insertion-ordered association lists, Python
exceptions as explicit `Option`/sum results, and the HTTP client as an
oracle (`CycleEnv`) describing the outcome of each network call of one
update cycle.
-/

set_option autoImplicit false

namespace Seafile

/-! ## Python dict as insertion-ordered association list -/

/-- Python `dict` keyed by strings, as an insertion-ordered association list. -/
abbrev Dict (α : Type) := List (String × α)

/-- Python `d[k] = v`: update the value in place when the key exists
(keeping its position), otherwise append the new pair at the end. -/
def dictUpsert {α : Type} (k : String) (v : α) : Dict α → Dict α
  | [] => [(k, v)]
  | (k₀, v₀) :: rest =>
    if k₀ = k then (k, v) :: rest else (k₀, v₀) :: dictUpsert k v rest

/-- Python `k in d`. -/
def dictContains {α : Type} (k : String) : Dict α → Bool
  | [] => false
  | (k₀, _) :: rest => k₀ == k || dictContains k rest

/-! ## Error taxonomy (`exceptions.py`)

`SeafileConnectionError` and `SeafileRequestError` are the exactly two
error kinds raised by the API client (`client.py`); both derive from
`SeafileError`. -/

/-- The two kinds of `SeafileError` raised by `SeafileClient`. -/
inductive SeafileErr : Type
  | connection
  | request
deriving DecidableEq

/-- Result of one client call: a value, or one of the two raised error kinds. -/
inductive Outcome (α : Type) : Type
  | ok (a : α)
  | err (e : SeafileErr)
deriving DecidableEq

/-- True when the call returned without raising. -/
def Outcome.isOk {α : Type} : Outcome α → Bool
  | .ok _ => true
  | .err _ => false

/-! ## Client responses consumed by the updater

Typed views of the JSON payloads returned by `SeafileClient.server`,
`SeafileClient.account` and `SeafileClient.libraries`.  Optional fields
model the `"version" in response` / `code in response` presence checks;
numeric account fields are the result of Python `int(...)` conversion. -/

/-- Payload of `GET server-info` as used by `_async_prepare_server`. -/
structure ServerResponse : Type where
  version : Option String
deriving DecidableEq

/-- Payload of `GET account/info` as used by `_async_prepare_account`. -/
structure AccountResponse : Type where
  avatar_url : Option String
  total : Option Int
  usage : Option Int
deriving DecidableEq

/-- One entry of the `GET repos?type=mine` listing used by
`_async_prepare_libraries`. -/
structure LibraryItem : Type where
  id : String
  size : Int
  name : String
deriving DecidableEq

/-- Oracle describing what each client call of one update cycle would do. -/
structure CycleEnv : Type where
  login : Outcome Unit
  server : Outcome ServerResponse
  account : Outcome AccountResponse
  libraries : Outcome (List LibraryItem)
deriving DecidableEq

/-! ## Updater data model (`updater.py`) -/

/-- Value stored in `data["repositories"][id]`: the `size`/`name` record. -/
structure RepoInfo : Type where
  size : Int
  name : String
deriving DecidableEq

/-- Entity category of a sensor descriptor (only `DIAGNOSTIC` is used). -/
inductive EntityCategory : Type
  | diagnostic
deriving DecidableEq

/-- The varying fields of a `SeafileEntityDescription` built by
`_add_size_sensor` (the remaining attributes — icon, unit, state class —
are the same constants for every descriptor). -/
structure SeafileEntityDescription : Type where
  key : String
  name : String
  entity_category : Option EntityCategory
  custom_key : Option String
  repository_code : Option String
deriving DecidableEq

/-- The updater snapshot `self.data`: a dict whose possible keys are
`repositories`, `state`, `device_sw_version`, `avatar_url`,
`space_total`, `space_usage`; absence of a key is `none`. -/
structure UpdaterData : Type where
  repositories : Dict RepoInfo
  state : Option Bool
  device_sw_version : Option String
  avatar_url : Option String
  space_total : Option Int
  space_usage : Option Int
deriving DecidableEq

/-- The mutable state of a `SeafileUpdater` relevant to `update`. -/
structure UpdaterState : Type where
  data : UpdaterData
  sensors : Dict SeafileEntityDescription
  code : Nat
  is_reauthorization : Bool
  is_first_update : Bool
  is_only_check : Bool
  has_new_sensor_callback : Bool
deriving DecidableEq

/-- State established by `SeafileUpdater.__init__`: empty snapshot with an
empty `repositories` dict, no sensors, `code = BAD_GATEWAY` (502),
`_is_reauthorization = True` (class default), `_is_first_update = True`. -/
def initState (is_only_check has_cb : Bool) : UpdaterState where
  data :=
    { repositories := []
      state := none
      device_sw_version := none
      avatar_url := none
      space_total := none
      space_usage := none }
  sensors := []
  code := 502
  is_reauthorization := true
  is_first_update := true
  is_only_check := is_only_check
  has_new_sensor_callback := has_cb

/-- Client calls observable during one cycle, in issue order. -/
inductive ClientCall : Type
  | login
  | server
  | account
  | libraries
deriving DecidableEq

/-- Sensor-descriptor registry together with the keys announced (via
`async_dispatcher_send(SIGNAL_NEW_SENSOR, ...)`) so far this cycle. -/
structure SensorReg : Type where
  sensors : Dict SeafileEntityDescription
  announced : List String
deriving DecidableEq

/-- `SeafileUpdater._add_size_sensor`: return unchanged when the key is
already registered; otherwise append the new descriptor and, when a
new-sensor callback is installed, announce the key to listeners. -/
def addSizeSensor (code name : String) (entity_category : Option EntityCategory)
    (repository_code custom_key : Option String) (has_cb : Bool)
    (st : SensorReg) : SensorReg :=
  if dictContains code st.sensors then st
  else
    { sensors := st.sensors ++
        [(code,
          { key := code
            name := name
            entity_category := entity_category
            custom_key := custom_key
            repository_code := repository_code })]
      announced := st.announced ++ (if has_cb then [code] else []) }

/-- `SeafileUpdater._async_prepare_server`: store the version field when
present. -/
def prepareServer (response : ServerResponse) (data : UpdaterData) : UpdaterData :=
  match response.version with
  | some v => { data with device_sw_version := some v }
  | none => data

/-- `SeafileUpdater._async_prepare_account`: store the avatar URL when
present, then for each of `total`, `usage` (in that order): when present
and non-negative, store it as `space_<field>` and register a diagnostic
size sensor named `Space <field>`. -/
def prepareAccount (response : AccountResponse) (has_cb : Bool)
    (data : UpdaterData) (reg : SensorReg) : UpdaterData × SensorReg :=
  let data :=
    match response.avatar_url with
    | some a => { data with avatar_url := some a }
    | none => data
  let step1 : UpdaterData × SensorReg :=
    match response.total with
    | some t =>
      if 0 ≤ t then
        ({ data with space_total := some t },
          addSizeSensor "space_total" "Space total" (some .diagnostic) none none has_cb reg)
      else (data, reg)
    | none => (data, reg)
  match response.usage with
  | some u =>
    if 0 ≤ u then
      ({ step1.1 with space_usage := some u },
        addSizeSensor "space_usage" "Space usage" (some .diagnostic) none none has_cb step1.2)
    else step1
  | none => step1

/-- `SeafileUpdater._async_prepare_libraries`: for every returned library,
upsert its `size`/`name` record into `repositories[id]` and register a
size sensor keyed `<id>_used` bound to that repository. -/
def prepareLibraries (response : List LibraryItem) (has_cb : Bool)
    (data : UpdaterData) (reg : SensorReg) : UpdaterData × SensorReg :=
  response.foldl
    (fun acc lib =>
      ({ acc.1 with
          repositories := dictUpsert lib.id { size := lib.size, name := lib.name } acc.1.repositories },
        addSizeSensor (lib.id ++ "_used") (lib.name ++ " used") none
          (some lib.id) (some "size") has_cb acc.2))
    (data, reg)

/-- The data-stage loop of `SeafileUpdater.update`: run
`server`, `account`, `libraries` in order, aborting at the first raised
error; with `_is_only_check` only the `server` stage runs.  Returns the
snapshot and registry as mutated so far, the list of client calls made,
and the raised error if any. -/
def runDataStages (env : CycleEnv) (is_only_check has_cb : Bool)
    (data : UpdaterData) (reg : SensorReg) :
    UpdaterData × SensorReg × List ClientCall × Option SeafileErr :=
  match env.server with
  | .err e => (data, reg, [.server], some e)
  | .ok sresp =>
    let data := prepareServer sresp data
    if is_only_check then (data, reg, [.server], none)
    else
      match env.account with
      | .err e => (data, reg, [.server, .account], some e)
      | .ok aresp =>
        let acc := prepareAccount aresp has_cb data reg
        match env.libraries with
        | .err e => (acc.1, acc.2, [.server, .account, .libraries], some e)
        | .ok lresp =>
          let acc2 := prepareLibraries lresp has_cb acc.1 acc.2
          (acc2.1, acc2.2, [.server, .account, .libraries], none)

/-- `httpx.codes.is_success`: 2xx status codes. -/
def isSuccessCode (code : Nat) : Bool :=
  200 ≤ code && code ≤ 299

/-- Status code recorded by `update`: `OK` when nothing raised,
`NOT_FOUND` on `SeafileConnectionError`, `FORBIDDEN` on
`SeafileRequestError`. -/
def errCode : Option SeafileErr → Nat
  | none => 200
  | some .connection => 404
  | some .request => 403

/-- Result of one `SeafileUpdater.update` call: the updater state after
the cycle, the snapshot dict the coroutine returned (`return self.data`),
the client calls made in order, and the sensor keys announced. -/
structure UpdateResult : Type where
  updater : UpdaterState
  snapshot : UpdaterData
  calls : List ClientCall
  announced : List String
deriving DecidableEq

/-- `SeafileUpdater.update`: log in when the reauthorization flag or the
first-cycle flag is set; on success run the data stages in order; classify
a raised `SeafileConnectionError`/`SeafileRequestError` into the status
code and set the sticky reauthorization flag; on a clean cycle clear both
flags; always set `data["state"]` from the success predicate and return
`self.data`. -/
def update (env : CycleEnv) (s : UpdaterState) : UpdateResult :=
  let attempt := s.is_reauthorization || s.is_first_update
  let loginCalls : List ClientCall := if attempt then [.login] else []
  match (if attempt then env.login else .ok ()) with
  | .err e =>
    let code := errCode (some e)
    let data := { s.data with state := some (isSuccessCode code) }
    { updater :=
        { s with
          data := data
          code := code
          is_reauthorization := true }
      snapshot := data
      calls := loginCalls
      announced := [] }
  | .ok _ =>
    let res := runDataStages env s.is_only_check s.has_new_sensor_callback s.data ⟨s.sensors, []⟩
    let code := errCode res.2.2.2
    let data := { res.1 with state := some (isSuccessCode code) }
    match res.2.2.2 with
    | some _ =>
      { updater :=
          { s with
            data := data
            sensors := res.2.1.sensors
            code := code
            is_reauthorization := true }
        snapshot := data
        calls := loginCalls ++ res.2.2.1
        announced := res.2.1.announced }
    | none =>
      { updater :=
          { s with
            data := data
            sensors := res.2.1.sensors
            code := code
            is_reauthorization := false
            is_first_update := false }
        snapshot := data
        calls := loginCalls ++ res.2.2.1
        announced := res.2.1.announced }

/-- Run a sequence of update cycles from a given state. -/
def runCycles (envs : List CycleEnv) (s : UpdaterState) : UpdaterState :=
  envs.foldl (fun s env => (update env s).updater) s

/-- A cycle completes cleanly when login (if attempted) and every
attempted data stage return without raising. -/
def cycleOk (env : CycleEnv) (s : UpdaterState) : Bool :=
  (if s.is_reauthorization || s.is_first_update then env.login.isOk else true) &&
  env.server.isOk &&
  (if s.is_only_check then true else env.account.isOk && env.libraries.isOk)

/-! ## Client error-message builder (`SeafileClient._raise`) -/

/-- Value of one field of a JSON error body: a string, a list of strings,
or some other JSON value with the given Python truthiness. -/
inductive PyVal : Type
  | vstr (s : String)
  | vlist (xs : List String)
  | vother (truthy : Bool)
deriving DecidableEq

/-- Python truthiness of a field value (`if not errors: continue`). -/
def PyVal.truthy : PyVal → Bool
  | .vstr s => !s.isEmpty
  | .vlist xs => !xs.isEmpty
  | .vother t => t

/-- Parsed JSON body handed to `_raise`: either a JSON array or a JSON
object (an insertion-ordered field list). -/
inductive RaiseBody : Type
  | blist (xs : List PyVal)
  | bdict (fields : List (String × PyVal))
deriving DecidableEq

/-- The fragment-collection loop of `_raise`: falsy values are skipped,
string values are included verbatim, list values are joined with `"; "`
and prefixed with `"<field>: "`, other values are skipped. -/
def raiseFragments : List (String × PyVal) → List String
  | [] => []
  | (field, v) :: rest =>
    if v.truthy = false then raiseFragments rest
    else
      match v with
      | .vstr s => s :: raiseFragments rest
      | .vlist xs => (field ++ ": " ++ String.intercalate "; " xs) :: raiseFragments rest
      | .vother _ => raiseFragments rest

/-- Message of the `SeafileRequestError` raised by `SeafileClient._raise`:
generic for an empty or list body, otherwise the collected fragments
joined with `".\n"`, falling back to the generic message when no fragment
was produced. -/
def raiseMessage : RaiseBody → String
  | .blist _ => "Request error."
  | .bdict fields =>
    if fields.isEmpty then "Request error."
    else
      let frags := raiseFragments fields
      if frags.isEmpty then "Request error." else String.intercalate ".\n" frags

/-- Result of `SeafileClient.request`/`login` after the response body was
parsed as JSON: the error raised, or the parsed body returned. -/
inductive ClientResult : Type
  | connErr (msg : String)
  | reqErr (msg : String)
  | value (body : RaiseBody)
deriving DecidableEq

/-- Transport-level view of one HTTP exchange: either a transport or JSON
parsing failure, or a response with a status code and parsed JSON body. -/
inductive HttpResult : Type
  | transport
  | response (status : Nat) (body : RaiseBody)
deriving DecidableEq

/-- Error classification of `SeafileClient.request`: transport or parsing
failures raise `SeafileConnectionError("Connection error")`; an HTTP
status of at least 400 hands the parsed body to `_raise`, which raises a
`SeafileRequestError` carrying the built message. -/
def requestResult : HttpResult → ClientResult
  | .transport => .connErr "Connection error"
  | .response status body =>
    if 400 ≤ status then .reqErr (raiseMessage body) else .value body

/-! ## String helpers shared by `helper.py` models

Paths and identifiers are modelled as `List Char`; `String.toList`
bridges to Lean string literals. -/

/-- Value of a hexadecimal digit character, accepting both cases. -/
def hexDigitVal (c : Char) : Option Nat :=
  if 48 ≤ c.toNat ∧ c.toNat ≤ 57 then some (c.toNat - 48)
  else if 97 ≤ c.toNat ∧ c.toNat ≤ 102 then some (c.toNat - 87)
  else if 65 ≤ c.toNat ∧ c.toNat ≤ 70 then some (c.toNat - 55)
  else none

/-- Lowercase hexadecimal digit character for a value below 16. -/
def hexDigitLower (n : Nat) : Char :=
  if n < 10 then Char.ofNat (48 + n) else Char.ofNat (87 + n)

/-- Uppercase hexadecimal digit character for a value below 16
(Python `quote` emits uppercase percent escapes). -/
def hexDigitUpper (n : Nat) : Char :=
  if n < 10 then Char.ofNat (48 + n) else Char.ofNat (55 + n)

/-- Big-endian fixed-width lowercase hexadecimal rendering, as produced
by Python `'%032x' % n` for width 32. -/
def toHexLower : Nat → Nat → List Char
  | 0, _ => []
  | k + 1, n => toHexLower k (n / 16) ++ [hexDigitLower (n % 16)]

/-- One step of hexadecimal-string parsing: shift in one digit, failing
on a non-digit character. -/
def parseHexStep (acc : Option Nat) (c : Char) : Option Nat :=
  match acc, hexDigitVal c with
  | some a, some d => some (a * 16 + d)
  | _, _ => none

/-- Parse a big-endian string of hexadecimal digits (either case); `none`
when any character is not a hexadecimal digit. -/
def parseHexDigits (l : List Char) : Option Nat :=
  l.foldl parseHexStep (some 0)

/-- Whether `pat` is an initial segment of `l`. -/
def listStarts : List Char → List Char → Bool
  | [], _ => true
  | _ :: _, [] => false
  | p :: ps, c :: cs => p == c && listStarts ps cs

/-- Whether `pat` occurs as a contiguous segment of `l`. -/
def listOccurs (pat : List Char) : List Char → Bool
  | [] => listStarts pat []
  | c :: rest => listStarts pat (c :: rest) || listOccurs pat rest

/-- Fuel-driven worker for `replaceSub`; the fuel is always at least the
length of the list, so the exhaustion branch is never taken. -/
def replaceSubFuel (pat rep : List Char) : Nat → List Char → List Char
  | _, [] => []
  | 0, l => l
  | fuel + 1, c :: rest =>
    if pat.isEmpty then c :: rest
    else if listStarts pat (c :: rest) then
      rep ++ replaceSubFuel pat rep fuel ((c :: rest).drop pat.length)
    else c :: replaceSubFuel pat rep fuel rest

/-- Python `str.replace(pat, rep)` for a non-empty pattern: scan left to
right, replacing non-overlapping occurrences and resuming after each
replacement. -/
def replaceSub (pat rep l : List Char) : List Char :=
  replaceSubFuel pat rep l.length l

/-- Python `str.strip(chars)`: drop characters of the given set from both
ends. -/
def stripChars (set : List Char) (l : List Char) : List Char :=
  ((l.dropWhile (fun c => set.contains c)).reverse.dropWhile
    (fun c => set.contains c)).reverse

/-! ## UUID validation (`helper.is_valid_uuid`)

Models `uuid.UUID(value, version=4)` from the Python standard library:
the constructor strips `urn:` / `uuid:` / braces / hyphens from the text,
requires exactly 32 hexadecimal digits, parses them as an integer, then
overwrites the RFC 4122 variant bits (bits 62–63 become `10`) and the
version field (bits 76–79 become `4`).  `str(uuid_object)` renders the
canonical lowercase hyphenated 8-4-4-4-12 form.  (Python `int(x, 16)`
tolerates some extra shapes — signs, underscores, whitespace — that can
never survive the final canonical-string comparison, so they are not
modelled.) -/

/-- Parsing phase of `uuid.UUID(value, version=4)`: returns the 128-bit
integer, or `none` when `ValueError` would be raised. -/
def pyUuidParse (l : List Char) : Option Nat :=
  let h := replaceSub "urn:".toList [] l
  let h := replaceSub "uuid:".toList [] h
  let h := stripChars ['{', '}'] h
  let h := replaceSub ['-'] [] h
  if h.length = 32 then parseHexDigits h else none

/-- Replace the `w`-bit field at bit offset `lo` of `n` with `v` (the
net effect of the mask-clear-then-or pairs in `uuid.UUID.__init__`). -/
def setBitField (lo w v n : Nat) : Nat :=
  n / 2 ^ (lo + w) * 2 ^ (lo + w) + v * 2 ^ lo + n % 2 ^ lo

/-- The variant/version overwrite performed by `uuid.UUID.__init__` for
`version=4`: bits 62–63 become `10`, bits 76–79 become `0100`. -/
def forceVersion4Variant (n : Nat) : Nat :=
  setBitField 76 4 4 (setBitField 62 2 2 n)

/-- Hyphen insertion of `str(uuid_object)`: split a 32-digit hexadecimal
rendering in the 8-4-4-4-12 pattern. -/
def uuidAssemble (h : List Char) : List Char :=
  h.take 8 ++ '-' :: (h.drop 8).take 4 ++ '-' :: (h.drop 12).take 4 ++
    '-' :: (h.drop 16).take 4 ++ '-' :: h.drop 20

/-- Canonical `str(uuid_object)` rendering: 32 lowercase hexadecimal
digits with hyphens in the 8-4-4-4-12 pattern. -/
def uuidStrOfNat (n : Nat) : List Char :=
  uuidAssemble (toHexLower 32 n)

/-- `helper.is_valid_uuid`: parse with `uuid.UUID(value, version=4)` and
accept exactly when the canonical rendering of the parsed object equals
the input. -/
def is_valid_uuid (s : String) : Bool :=
  match pyUuidParse s.toList with
  | none => false
  | some n => uuidStrOfNat (forceVersion4Variant n) == s.toList

/-! ## Path encoding (`helper.encode_path` / `helper.decode_path`)

Models Python `urllib.parse.quote_plus(path, "/")` and
`urllib.parse.unquote_plus`: safe characters (letters, digits, `_.-~`
plus the extra-safe `/`) pass through, spaces become `+`, every other
character is percent-encoded as its UTF-8 bytes with uppercase
hexadecimal digits.  Decoding turns `+` back into spaces, then decodes
maximal percent-escape byte runs as UTF-8 (invalid sequences produce
U+FFFD, as with `errors="replace"`). -/

/-- Characters never quoted by `urllib.parse.quote` (letters, digits and
`_.-~`). -/
def alwaysSafe (c : Char) : Bool :=
  (97 ≤ c.toNat && c.toNat ≤ 122) || (65 ≤ c.toNat && c.toNat ≤ 90) ||
    (48 ≤ c.toNat && c.toNat ≤ 57) || c == '_' || c == '.' || c == '-' || c == '~'

/-- Safe characters for `quote_plus(path, "/")`. -/
def quoteSafe (c : Char) : Bool :=
  alwaysSafe c || c == '/'

/-- UTF-8 encoding of a Unicode code point as a byte list. -/
def utf8EncodeNat (n : Nat) : List Nat :=
  if n < 128 then [n]
  else if n < 2048 then [192 + n / 64, 128 + n % 64]
  else if n < 65536 then [224 + n / 4096, 128 + n / 64 % 64, 128 + n % 64]
  else [240 + n / 262144, 128 + n / 4096 % 64, 128 + n / 64 % 64, 128 + n % 64]

/-- Percent escape of one byte with uppercase hexadecimal digits. -/
def percentByte (b : Nat) : List Char :=
  ['%', hexDigitUpper (b / 16), hexDigitUpper (b % 16)]

/-- Per-character action of `quote_plus(path, "/")`. -/
def quoteChar (c : Char) : List Char :=
  if c == ' ' then ['+']
  else if quoteSafe c then [c]
  else (utf8EncodeNat c.toNat).flatMap percentByte

/-- `urllib.parse.quote_plus(path, "/")`. -/
def pyQuotePlus (l : List Char) : List Char :=
  l.flatMap quoteChar

/-- Fuel-driven worker for `pctToBytes`; the fuel is always at least the
length of the list, so the exhaustion branch is never taken. -/
def pctToBytesFuel : Nat → List Char → List Nat
  | _, [] => []
  | 0, _ => []
  | fuel + 1, c :: rest =>
    if c = '%' then
      match rest with
      | h1 :: h2 :: rest2 =>
        match hexDigitVal h1, hexDigitVal h2 with
        | some d1, some d2 => (d1 * 16 + d2) :: pctToBytesFuel fuel rest2
        | _, _ => utf8EncodeNat c.toNat ++ pctToBytesFuel fuel rest
      | _ => utf8EncodeNat c.toNat ++ pctToBytesFuel fuel rest
    else utf8EncodeNat c.toNat ++ pctToBytesFuel fuel rest

/-- Byte stream of an escaped string: percent escapes become single
bytes, any other character contributes its UTF-8 bytes. -/
def pctToBytes (l : List Char) : List Nat :=
  pctToBytesFuel l.length l

/-- The Unicode replacement character emitted for invalid UTF-8 input. -/
def replacementChar : Char := Char.ofNat 65533

/-- Smallest admissible second byte for a three-byte UTF-8 lead. -/
def utf8Cont2Lo (b : Nat) : Nat := if b = 224 then 160 else 128

/-- Largest admissible second byte for a three-byte UTF-8 lead (excluding
surrogate encodings). -/
def utf8Cont2Hi (b : Nat) : Nat := if b = 237 then 159 else 191

/-- Smallest admissible second byte for a four-byte UTF-8 lead. -/
def utf8Cont3Lo (b : Nat) : Nat := if b = 240 then 144 else 128

/-- Largest admissible second byte for a four-byte UTF-8 lead (code
points up to U+10FFFF). -/
def utf8Cont3Hi (b : Nat) : Nat := if b = 244 then 143 else 128 + 63

/-- Fuel-driven worker for `utf8DecodeBytes`; the fuel is always at least
the length of the byte list, so the exhaustion branch is never taken. -/
def utf8DecodeFuel : Nat → List Nat → List Char
  | _, [] => []
  | 0, _ => []
  | fuel + 1, b :: rest =>
    if b < 128 then Char.ofNat b :: utf8DecodeFuel fuel rest
    else if 194 ≤ b ∧ b ≤ 223 then
      match rest with
      | b1 :: rest1 =>
        if 128 ≤ b1 ∧ b1 ≤ 191 then
          Char.ofNat ((b - 192) * 64 + (b1 - 128)) :: utf8DecodeFuel fuel rest1
        else replacementChar :: utf8DecodeFuel fuel rest
      | [] => [replacementChar]
    else if 224 ≤ b ∧ b ≤ 239 then
      match rest with
      | b1 :: b2 :: rest2 =>
        if (utf8Cont2Lo b ≤ b1 ∧ b1 ≤ utf8Cont2Hi b) ∧ (128 ≤ b2 ∧ b2 ≤ 191) then
          Char.ofNat ((b - 224) * 4096 + (b1 - 128) * 64 + (b2 - 128)) :: utf8DecodeFuel fuel rest2
        else replacementChar :: utf8DecodeFuel fuel rest
      | _ => replacementChar :: utf8DecodeFuel fuel rest
    else if 240 ≤ b ∧ b ≤ 244 then
      match rest with
      | b1 :: b2 :: b3 :: rest3 =>
        if (utf8Cont3Lo b ≤ b1 ∧ b1 ≤ utf8Cont3Hi b) ∧ (128 ≤ b2 ∧ b2 ≤ 191) ∧
            (128 ≤ b3 ∧ b3 ≤ 191) then
          Char.ofNat ((b - 240) * 262144 + (b1 - 128) * 4096 + (b2 - 128) * 64 + (b3 - 128)) ::
            utf8DecodeFuel fuel rest3
        else replacementChar :: utf8DecodeFuel fuel rest
      | _ => replacementChar :: utf8DecodeFuel fuel rest
    else replacementChar :: utf8DecodeFuel fuel rest

/-- Strict UTF-8 decoding of a byte stream, emitting U+FFFD for invalid
sequences (overlong forms, surrogates and stray bytes rejected). -/
def utf8DecodeBytes (l : List Nat) : List Char :=
  utf8DecodeFuel l.length l

/-- `urllib.parse.unquote_plus`: replace `+` with spaces, then decode
percent-escape byte runs as UTF-8. -/
def pyUnquotePlus (l : List Char) : List Char :=
  utf8DecodeBytes (pctToBytes (l.map (fun c => if c == '+' then ' ' else c)))

/-- `helper.encode_path`: replace `(` with `|28|` and `)` with `|29|`,
quote with `quote_plus(path, "/")`, then strip slashes from both ends. -/
def encode_path (l : List Char) : List Char :=
  let l := replaceSub ['('] "|28|".toList l
  let l := replaceSub [')'] "|29|".toList l
  stripChars ['/'] (pyQuotePlus l)

/-- `helper.decode_path`: unquote with `unquote_plus`, then replace
`|28|` with `(` and `|29|` with `)`. -/
def decode_path (l : List Char) : List Char :=
  let l := pyUnquotePlus l
  let l := replaceSub "|28|".toList ['('] l
  replaceSub "|29|".toList [')'] l

/-! ## Thumbnail proxy (`views.ThumbnailProxyView.get`) -/

/-- API-client calls the thumbnail view can make. -/
inductive ViewClientCall : Type
  | file
  | thumbnail
deriving DecidableEq

/-- Body of the HTTP response produced by the view: plain text for 404
answers, raw bytes for a served thumbnail. -/
inductive ViewBody : Type
  | text (s : String)
  | blob (b : List Nat)
deriving DecidableEq

/-- HTTP response of the thumbnail view. -/
structure ViewResponse : Type where
  status : Nat
  body : ViewBody
deriving DecidableEq

/-- Environment of one thumbnail request: whether `async_get_updater`
finds the entry, the `mimetypes.guess_type` result for the file path, and
what each possible client call or local conversion would produce.
Conversion failures stand for the `ValueError`/`ModuleNotFoundError`
cases caught alongside `SeafileError`. -/
structure ViewEnv : Type where
  entry_found : Bool
  mime : Option String
  file_result : Outcome (List Nat)
  thumbnail_result : Outcome (List Nat)
  heic_convert : Option (List Nat)
  video_convert : List Nat
deriving DecidableEq

/-- First component of a MIME type (`helper.get_short_mime`). -/
def get_short_mime (mime : Option String) : Option String :=
  match mime with
  | none => none
  | some m => some (((m.splitOn "/").headD ""))

/-- `ThumbnailProxyView.get`: resolve the updater by entry id (404 when
absent), validate the repository id as a UUID (404 when invalid), then
fetch — depending on the guessed MIME type — the converted HEIC file, a
video poster frame, or the remote thumbnail; any caught failure yields a
404 with the short text body.  Returns the response together with the
API-client calls made. -/
def thumbnailGet (env : ViewEnv) (entry_id repo_id : String)
    (_size : Nat) (_file_path : String) : ViewResponse × List ViewClientCall :=
  if env.entry_found = false then
    (⟨404, .text ("Unable to find entry with id: " ++ entry_id)⟩, [])
  else if is_valid_uuid repo_id = false then
    (⟨404, .text ("Unable to find library with id: " ++ repo_id)⟩, [])
  else if env.mime = some "image/heic" then
    match env.file_result with
    | .err _ => (⟨404, .text "Thumbnail not found"⟩, [.file])
    | .ok _ =>
      match env.heic_convert with
      | none => (⟨404, .text "Thumbnail not found"⟩, [.file])
      | some thumb => (⟨200, .blob thumb⟩, [.file])
  else if get_short_mime env.mime = some "video" then
    match env.file_result with
    | .err _ => (⟨404, .text "Thumbnail not found"⟩, [.file])
    | .ok _ => (⟨200, .blob env.video_convert⟩, [.file])
  else
    match env.thumbnail_result with
    | .err _ => (⟨404, .text "Thumbnail not found"⟩, [.thumbnail])
    | .ok thumb => (⟨200, .blob thumb⟩, [.thumbnail])

/-! ## Derived notions used in theorem statements -/

/-- Argument tuple of one `_add_size_sensor` call. -/
structure SensorRegReq : Type where
  code : String
  name : String
  entity_category : Option EntityCategory
  repository_code : Option String
  custom_key : Option String
deriving DecidableEq

/-- Run a sequence of `_add_size_sensor` calls. -/
def runSensorRegs (has_cb : Bool) (reqs : List SensorRegReq) (st : SensorReg) : SensorReg :=
  reqs.foldl
    (fun st r => addSizeSensor r.code r.name r.entity_category r.repository_code r.custom_key has_cb st)
    st

/-- Fragment contributed by one error field per the specified message
build: a (non-empty) string value verbatim, a (non-empty) list value
joined with `"; "` and prefixed with the field name. -/
def fragmentOf (field : String) (v : PyVal) : Option String :=
  match v with
  | .vstr s => if s.isEmpty then none else some s
  | .vlist xs => if xs.isEmpty then none else some (field ++ ": " ++ String.intercalate "; " xs)
  | .vother _ => none

/-- Combined effect of the two parenthesis substitutions of
`encode_path` on one character. -/
def charRP (c : Char) : List Char :=
  if c = '(' then "|28|".toList else if c = ')' then "|29|".toList else [c]

/-- Combined effect on one character of the parenthesis substitutions
after the `|28|` occurrences have been folded back to `(`. -/
def charRPa (c : Char) : List Char :=
  if c = '(' then ['('] else if c = ')' then "|29|".toList else [c]

/-- Character sequences on which the sequential `str.replace` calls of
`decode_path` misparse the encoded parenthesis tokens: a `)` directly
followed by `28` and another parenthesis. -/
def pathHazard (p : List Char) : Bool :=
  listOccurs ")28(".toList p || listOccurs ")28)".toList p

/-- Combined per-character effect of the parenthesis substitutions
followed by `quote_plus(path, "/")` inside `encode_path`. -/
def encChar (c : Char) : List Char :=
  (charRP c).flatMap quoteChar

/-! # Theorems

## Updater cycle lemmas -/

/-- A status code derived from a raised error is never a success code. -/
theorem isSuccess_errCode_some (e : SeafileErr) :
    isSuccessCode (errCode (some e)) = false := by
  cases e <;> rfl

/-- The status code of a clean cycle is a success code. -/
theorem isSuccess_errCode_none : isSuccessCode (errCode none) = true := rfl

/-- After any cycle, the snapshot `state` key holds exactly whether the
cycle completed without raising. -/
theorem update_state_eq (env : CycleEnv) (s : UpdaterState) :
    (update env s).updater.data.state = some (cycleOk env s) := by
  cases hb : (s.is_reauthorization || s.is_first_update) <;>
    cases hl : env.login <;>
      cases hs : env.server <;>
        cases hoc : s.is_only_check <;>
          cases ha : env.account <;>
            cases hlib : env.libraries <;>
              simp [update, runDataStages, cycleOk, Outcome.isOk,
                isSuccess_errCode_some, isSuccess_errCode_none, hb, hl, hs, hoc, ha, hlib]

/-- The updater state returned by a cycle carries the snapshot the cycle
returned. -/
theorem update_snapshot_eq (env : CycleEnv) (s : UpdaterState) :
    (update env s).snapshot = (update env s).updater.data := by
  cases hb : (s.is_reauthorization || s.is_first_update) <;>
    cases hl : env.login <;>
      cases hs : env.server <;>
        cases hoc : s.is_only_check <;>
          cases ha : env.account <;>
            cases hlib : env.libraries <;>
              simp [update, runDataStages, hb, hl, hs, hoc, ha, hlib]

/-- The snapshot `state` key always equals the success predicate applied
to the recorded status code. -/
theorem update_state_code (env : CycleEnv) (s : UpdaterState) :
    (update env s).updater.data.state = some (isSuccessCode (update env s).updater.code) := by
  cases hb : (s.is_reauthorization || s.is_first_update) <;>
    cases hl : env.login <;>
      cases hs : env.server <;>
        cases hoc : s.is_only_check <;>
          cases ha : env.account <;>
            cases hlib : env.libraries <;>
              simp [update, runDataStages, hb, hl, hs, hoc, ha, hlib]

/-- The reauthorization flag after a cycle records exactly whether the
cycle raised. -/
theorem update_reauth (env : CycleEnv) (s : UpdaterState) :
    (update env s).updater.is_reauthorization = !cycleOk env s := by
  cases hb : (s.is_reauthorization || s.is_first_update) <;>
    cases hl : env.login <;>
      cases hs : env.server <;>
        cases hoc : s.is_only_check <;>
          cases ha : env.account <;>
            cases hlib : env.libraries <;>
              simp [update, runDataStages, cycleOk, Outcome.isOk, hb, hl, hs, hoc, ha, hlib]

/-- After a clean cycle the first-update flag is cleared. -/
theorem update_first_of_ok (env : CycleEnv) (s : UpdaterState)
    (h : cycleOk env s = true) :
    (update env s).updater.is_first_update = false := by
  revert h
  cases hb : (s.is_reauthorization || s.is_first_update) <;>
    cases hl : env.login <;>
      cases hs : env.server <;>
        cases hoc : s.is_only_check <;>
          cases ha : env.account <;>
            cases hlib : env.libraries <;>
              simp [update, runDataStages, cycleOk, Outcome.isOk, hb, hl, hs, hoc, ha, hlib]

/-- When the reauthorization or first-update flag is set, the cycle calls
`login` before any data-stage call. -/
theorem update_calls_login (env : CycleEnv) (s : UpdaterState)
    (h : (s.is_reauthorization || s.is_first_update) = true) :
    ∃ rest, (update env s).calls = ClientCall.login :: rest := by
  cases hl : env.login <;>
    cases hs : env.server <;>
      cases hoc : s.is_only_check <;>
        cases ha : env.account <;>
          cases hlib : env.libraries <;>
            simp [update, runDataStages, h, hl, hs, hoc, ha, hlib]

/-- When neither flag is set, the cycle performs no `login` call. -/
theorem update_calls_no_login (env : CycleEnv) (s : UpdaterState)
    (h : (s.is_reauthorization || s.is_first_update) = false) :
    ClientCall.login ∉ (update env s).calls := by
  cases hl : env.login <;>
    cases hs : env.server <;>
      cases hoc : s.is_only_check <;>
        cases ha : env.account <;>
          cases hlib : env.libraries <;>
            simp [update, runDataStages, h, hl, hs, hoc, ha, hlib]

/-! ## Claim C1 -/

/-- C1.  For every sequence of update cycles, after each cycle the
snapshot key `state` is true iff that cycle completed (login when
attempted, plus all attempted data stages) without raising a
`SeafileConnectionError` or `SeafileRequestError`; equivalently, `state`
equals the success classification of the status code recorded for the
most recent cycle. -/
theorem C1_state_tracks_cycle (envs : List CycleEnv) (env : CycleEnv) (ck cb : Bool) :
    ((update env (runCycles envs (initState ck cb))).updater.data.state =
        some (cycleOk env (runCycles envs (initState ck cb)))) ∧
      ((update env (runCycles envs (initState ck cb))).updater.data.state =
        some (isSuccessCode (update env (runCycles envs (initState ck cb))).updater.code)) :=
  ⟨update_state_eq env (runCycles envs (initState ck cb)),
    update_state_code env (runCycles envs (initState ck cb))⟩

/-! ## Claim C2 -/

/-- C2.  Reauthorization is sticky: whenever a cycle fails (raises either
client error kind), the very next cycle calls `login` before any
data-stage call; the first cycle ever also always calls `login`
(regardless of any stored token, which the update logic never consults);
and after a successful cycle the next cycle skips `login`. -/
theorem C2_sticky_reauthorization (envs : List CycleEnv) (env1 env2 : CycleEnv) (ck cb : Bool) :
    (cycleOk env1 (runCycles envs (initState ck cb)) = false →
      ∃ rest, (update env2 (update env1 (runCycles envs (initState ck cb))).updater).calls =
        ClientCall.login :: rest) ∧
    (∃ rest, (update env1 (initState ck cb)).calls = ClientCall.login :: rest) ∧
    (cycleOk env1 (runCycles envs (initState ck cb)) = true →
      ClientCall.login ∉ (update env2 (update env1 (runCycles envs (initState ck cb))).updater).calls) := by
  refine ⟨fun hfail => ?_, ?_, fun hok => ?_⟩
  · apply update_calls_login
    rw [update_reauth, hfail]
    rfl
  · apply update_calls_login
    simp [initState]
  · apply update_calls_no_login
    rw [update_reauth, hok, update_first_of_ok env1 _ hok]
    rfl

/-- Witness for C2 at concrete inputs: a failing first cycle (connection
error during the library stage) forces the second cycle to log in first,
and a clean cycle makes the following cycle skip login. -/
theorem C2_sticky_reauthorization_witness :
    (∃ rest,
      (update
        { login := .ok (), server := .ok ⟨some "9.0.2"⟩,
          account := .ok ⟨none, some 100, some 50⟩, libraries := .ok [] }
        (update
          { login := .ok (), server := .ok ⟨some "9.0.2"⟩,
            account := .ok ⟨none, some 100, some 50⟩, libraries := .err .connection }
          (runCycles [] (initState false true))).updater).calls =
      ClientCall.login :: rest) ∧
    (∃ rest,
      (update
        { login := .ok (), server := .ok ⟨some "9.0.2"⟩,
          account := .ok ⟨none, some 100, some 50⟩, libraries := .ok [] }
        (initState false true)).calls = ClientCall.login :: rest) ∧
    (ClientCall.login ∉
      (update
        { login := .err .request, server := .ok ⟨some "9.0.2"⟩,
          account := .ok ⟨none, some 100, some 50⟩, libraries := .ok [] }
        (update
          { login := .ok (), server := .ok ⟨some "9.0.2"⟩,
            account := .ok ⟨none, some 100, some 50⟩, libraries := .ok [] }
          (runCycles [] (initState false true))).updater).calls) := by
  refine ⟨?_, ?_, ?_⟩
  · exact (C2_sticky_reauthorization []
      { login := .ok (), server := .ok ⟨some "9.0.2"⟩,
        account := .ok ⟨none, some 100, some 50⟩, libraries := .err .connection }
      { login := .ok (), server := .ok ⟨some "9.0.2"⟩,
        account := .ok ⟨none, some 100, some 50⟩, libraries := .ok [] }
      false true).1 (by decide)
  · exact (C2_sticky_reauthorization []
      { login := .ok (), server := .ok ⟨some "9.0.2"⟩,
        account := .ok ⟨none, some 100, some 50⟩, libraries := .ok [] }
      { login := .ok (), server := .ok ⟨some "9.0.2"⟩,
        account := .ok ⟨none, some 100, some 50⟩, libraries := .ok [] }
      false true).2.1
  · exact (C2_sticky_reauthorization []
      { login := .ok (), server := .ok ⟨some "9.0.2"⟩,
        account := .ok ⟨none, some 100, some 50⟩, libraries := .ok [] }
      { login := .err .request, server := .ok ⟨some "9.0.2"⟩,
        account := .ok ⟨none, some 100, some 50⟩, libraries := .ok [] }
      false true).2.2 (by decide)

/-! ## Claim C5 -/

/-- C5.  For every cycle and every behaviour of the API client (any
responses, and any raise of either client error kind at login or at any
data stage), `update` is a total function: it returns the snapshot dict
(`self.data` of the post-cycle state) rather than propagating the error,
with `state` false exactly when the cycle failed. -/
theorem C5_update_total (envs : List CycleEnv) (env : CycleEnv) (ck cb : Bool) :
    ((update env (runCycles envs (initState ck cb))).snapshot =
        (update env (runCycles envs (initState ck cb))).updater.data) ∧
      ((update env (runCycles envs (initState ck cb))).snapshot.state =
        some (cycleOk env (runCycles envs (initState ck cb)))) ∧
      (cycleOk env (runCycles envs (initState ck cb)) = false →
        (update env (runCycles envs (initState ck cb))).snapshot.state = some false) := by
  refine ⟨update_snapshot_eq env _, ?_, fun hfail => ?_⟩
  · rw [update_snapshot_eq env _]
    exact update_state_eq env _
  · rw [update_snapshot_eq env _, update_state_eq env _, hfail]

/-- Witness for C5 at a concrete failing cycle: a request error at the
account stage still yields a snapshot with `state = false`. -/
theorem C5_update_total_witness :
    (update
      { login := .ok (), server := .ok ⟨some "9.0.2"⟩,
        account := .err .request, libraries := .ok [] }
      (runCycles [] (initState false true))).snapshot.state = some false :=
  (C5_update_total []
    { login := .ok (), server := .ok ⟨some "9.0.2"⟩,
      account := .err .request, libraries := .ok [] }
    false true).2.2 (by decide)

/-! ## Claim C3: repositories never shrink -/

/-- Upserting keeps every key that was already present. -/
theorem dictContains_upsert {α : Type} (k k₀ : String) (v : α) (l : Dict α)
    (h : dictContains k₀ l = true) : dictContains k₀ (dictUpsert k v l) = true := by
  induction l with
  | nil => simp [dictContains] at h
  | cons hd tl ih =>
    obtain ⟨k₁, v₁⟩ := hd
    by_cases hk : k₁ = k
    · subst hk
      simp only [dictContains, Bool.or_eq_true, beq_iff_eq] at h
      simp only [dictUpsert, if_pos rfl, dictContains, Bool.or_eq_true, beq_iff_eq]
      rcases h with h | h
      · exact Or.inl h
      · exact Or.inr h
    · simp only [dictContains, Bool.or_eq_true, beq_iff_eq] at h
      simp only [dictUpsert, if_neg hk, dictContains, Bool.or_eq_true, beq_iff_eq]
      rcases h with h | h
      · exact Or.inl h
      · exact Or.inr (ih h)

/-- The account stage never touches the repositories dict. -/
theorem prepareAccount_repos (r : AccountResponse) (cb : Bool)
    (data : UpdaterData) (reg : SensorReg) :
    (prepareAccount r cb data reg).1.repositories = data.repositories := by
  cases hav : r.avatar_url <;>
    cases ht : r.total <;>
      cases hu : r.usage <;>
        simp only [prepareAccount, hav, ht, hu] <;>
          split_ifs <;> rfl

/-- The server stage never touches the repositories dict. -/
theorem prepareServer_repos (r : ServerResponse) (data : UpdaterData) :
    (prepareServer r data).repositories = data.repositories := by
  cases h : r.version <;> simp [prepareServer, h]

/-- The library stage only upserts repository records, so present keys
stay present. -/
theorem prepareLibraries_repos_mono (resp : List LibraryItem) (cb : Bool)
    (data : UpdaterData) (reg : SensorReg) (id : String)
    (h : dictContains id data.repositories = true) :
    dictContains id (prepareLibraries resp cb data reg).1.repositories = true := by
  induction resp generalizing data reg with
  | nil => simpa [prepareLibraries] using h
  | cons lib rest ih =>
    simp only [prepareLibraries, List.foldl_cons] at *
    exact ih _ _ (dictContains_upsert _ _ _ _ h)

/-- Running cycles for an appended environment list composes. -/
theorem runCycles_append (a b : List CycleEnv) (s : UpdaterState) :
    runCycles (a ++ b) s = runCycles b (runCycles a s) := by
  simp [runCycles, List.foldl_append]

/-- Running one more cycle unfolds from the front. -/
theorem runCycles_cons (env : CycleEnv) (rest : List CycleEnv) (s : UpdaterState) :
    runCycles (env :: rest) s = runCycles rest (update env s).updater := by
  simp [runCycles]

/-- One update cycle never removes a repository key from the snapshot. -/
theorem update_repos_mono (env : CycleEnv) (s : UpdaterState) (id : String)
    (h : dictContains id s.data.repositories = true) :
    dictContains id (update env s).updater.data.repositories = true := by
  cases hb : (s.is_reauthorization || s.is_first_update) <;>
    cases hl : env.login <;>
      cases hs : env.server <;>
        cases hoc : s.is_only_check <;>
          cases ha : env.account <;>
            cases hlib : env.libraries <;>
              simp [update, runDataStages, hb, hl, hs, hoc, ha, hlib,
                prepareServer_repos, prepareAccount_repos, h] <;>
              exact prepareLibraries_repos_mono _ _ _ _ _
                (by simp [prepareAccount_repos, prepareServer_repos, h])

/-- C3.  The `repositories` mapping is monotonically non-shrinking across
cycles: every repository id present in the snapshot after some sequence
of cycles is still present after any further cycles, whatever the later
library listings (or failures) are. -/
theorem C3_repositories_non_shrinking (envs1 envs2 : List CycleEnv) (ck cb : Bool)
    (id : String)
    (h : dictContains id (runCycles envs1 (initState ck cb)).data.repositories = true) :
    dictContains id (runCycles (envs1 ++ envs2) (initState ck cb)).data.repositories = true := by
  rw [runCycles_append]
  generalize runCycles envs1 (initState ck cb) = s at h ⊢
  induction envs2 generalizing s with
  | nil => simpa [runCycles] using h
  | cons env rest ih =>
    rw [runCycles_cons]
    exact ih _ (update_repos_mono env s id h)

/-- Witness for C3: a repository discovered in cycle one is still in the
snapshot after a later cycle whose listing no longer contains it. -/
theorem C3_repositories_non_shrinking_witness :
    dictContains "u1"
      (runCycles
        ([{ login := .ok (), server := .ok ⟨some "9.0.2"⟩,
            account := .ok ⟨none, some 100, some 50⟩,
            libraries := .ok [{ id := "u1", size := 10, name := "A" }] }] ++
          [{ login := .ok (), server := .ok ⟨some "9.0.2"⟩,
             account := .ok ⟨none, some 100, some 50⟩,
             libraries := .ok [] }])
        (initState false true)).data.repositories = true :=
  C3_repositories_non_shrinking
    [{ login := .ok (), server := .ok ⟨some "9.0.2"⟩,
       account := .ok ⟨none, some 100, some 50⟩,
       libraries := .ok [{ id := "u1", size := 10, name := "A" }] }]
    [{ login := .ok (), server := .ok ⟨some "9.0.2"⟩,
       account := .ok ⟨none, some 100, some 50⟩,
       libraries := .ok [] }]
    false true "u1" (by decide)

/-! ## Claim C4: sensor registration is idempotent -/

/-- Key membership distributes over dict concatenation. -/
theorem dictContains_append {α : Type} (k : String) (l1 l2 : Dict α) :
    dictContains k (l1 ++ l2) = (dictContains k l1 || dictContains k l2) := by
  induction l1 with
  | nil => simp [dictContains]
  | cons hd tl ih =>
    obtain ⟨a, b⟩ := hd
    simp [dictContains, ih, Bool.or_assoc]

/-- Registering an already-present key returns the registry unchanged:
no descriptor is added or mutated and nothing is announced. -/
theorem addSizeSensor_of_contains (code name : String) (ec : Option EntityCategory)
    (rc ck : Option String) (cb : Bool) (st : SensorReg)
    (h : dictContains code st.sensors = true) :
    addSizeSensor code name ec rc ck cb st = st := by
  simp [addSizeSensor, h]

/-- After registering a key, the key is present. -/
theorem contains_addSizeSensor_self (code name : String) (ec : Option EntityCategory)
    (rc ck : Option String) (cb : Bool) (st : SensorReg) :
    dictContains code (addSizeSensor code name ec rc ck cb st).sensors = true := by
  by_cases h : dictContains code st.sensors = true
  · simp [addSizeSensor, h]
  · simp [addSizeSensor, h, dictContains_append, dictContains]

/-- Unfolding one `_add_size_sensor` call of a call sequence. -/
theorem runSensorRegs_cons (cb : Bool) (r : SensorRegReq) (rest : List SensorRegReq)
    (st : SensorReg) :
    runSensorRegs cb (r :: rest) st =
      runSensorRegs cb rest
        (addSizeSensor r.code r.name r.entity_category r.repository_code r.custom_key cb st) := by
  simp [runSensorRegs]

/-- Key membership after registering a fresh key. -/
theorem addSizeSensor_sensors_new (code name : String) (ec : Option EntityCategory)
    (rc ck : Option String) (cb : Bool) (st : SensorReg) (k : String)
    (h : ¬dictContains code st.sensors = true) :
    dictContains k (addSizeSensor code name ec rc ck cb st).sensors =
      (dictContains k st.sensors || (code == k)) := by
  simp [addSizeSensor, h, dictContains_append, dictContains]

/-- Announced keys after registering a fresh key. -/
theorem addSizeSensor_announced_new (code name : String) (ec : Option EntityCategory)
    (rc ck : Option String) (cb : Bool) (st : SensorReg)
    (h : ¬dictContains code st.sensors = true) :
    (addSizeSensor code name ec rc ck cb st).announced =
      st.announced ++ (if cb then [code] else []) := by
  simp [addSizeSensor, h]

/-- Announcement counting for a sequence of `_add_size_sensor` calls: a
key is announced once exactly when the callback is installed, the key is
requested, and it was not registered before the sequence began. -/
theorem runSensorRegs_count (reqs : List SensorRegReq) (cb : Bool) (k : String) :
    ∀ st : SensorReg,
      (runSensorRegs cb reqs st).announced.count k =
        st.announced.count k +
          (if dictContains k st.sensors = true then 0
           else if cb = true ∧ k ∈ reqs.map SensorRegReq.code then 1 else 0) := by
  induction reqs with
  | nil =>
    intro st
    simp [runSensorRegs]
  | cons r rest ih =>
    intro st
    rw [runSensorRegs_cons, ih]
    by_cases h1 : dictContains r.code st.sensors = true
    · rw [addSizeSensor_of_contains _ _ _ _ _ _ _ h1]
      by_cases h2 : k = r.code
      · subst h2
        simp [h1]
      · simp [h2]
    · rw [addSizeSensor_announced_new _ _ _ _ _ _ _ h1,
        addSizeSensor_sensors_new _ _ _ _ _ _ _ _ h1]
      by_cases h2 : k = r.code
      · subst h2
        have hc : dictContains r.code st.sensors = false := eq_false_of_ne_true h1
        cases cb <;> simp [List.count_append, hc]
      · have hb : (r.code == k) = false := by
          cases hq : r.code == k
          · rfl
          · exact absurd (eq_of_beq hq).symm h2
        rw [hb, Bool.or_false]
        have hcount : (st.announced ++ (if cb = true then [r.code] else [])).count k =
            st.announced.count k := by
          cases cb <;> simp [List.count_append, List.count_cons, hb]
        rw [hcount]
        simp [h2]

/-- C4.  Sensor-descriptor registration via `_add_size_sensor` is
idempotent: registering an already-present key leaves the registry
unchanged (no second descriptor, no mutation, no announcement), a repeated
call is absorbed, and across any sequence of registration calls with the
new-sensor callback installed each distinct key is announced exactly
once, at creation time. -/
theorem C4_sensor_registration_idempotent :
    (∀ (code name : String) (ec : Option EntityCategory) (rc ck : Option String)
        (cb : Bool) (st : SensorReg),
      dictContains code st.sensors = true →
        addSizeSensor code name ec rc ck cb st = st) ∧
    (∀ (code name : String) (ec : Option EntityCategory) (rc ck : Option String)
        (cb : Bool) (st : SensorReg),
      addSizeSensor code name ec rc ck cb (addSizeSensor code name ec rc ck cb st) =
        addSizeSensor code name ec rc ck cb st) ∧
    (∀ (reqs : List SensorRegReq) (s0 : Dict SeafileEntityDescription) (k : String),
      (runSensorRegs true reqs ⟨s0, []⟩).announced.count k =
        (if dictContains k s0 = false ∧ k ∈ reqs.map SensorRegReq.code then 1 else 0)) := by
  refine ⟨addSizeSensor_of_contains, fun code name ec rc ck cb st => ?_, fun reqs s0 k => ?_⟩
  · exact addSizeSensor_of_contains _ _ _ _ _ _ _
      (contains_addSizeSensor_self code name ec rc ck cb st)
  · rw [runSensorRegs_count reqs true k ⟨s0, []⟩]
    by_cases h : dictContains k s0 = true
    · simp [h]
    · simp [h, eq_false_of_ne_true h]

/-- Witness for C4 at concrete inputs: re-registering the key `a` leaves
the registry untouched, and over a sequence registering `a` twice the key
is announced exactly once. -/
theorem C4_sensor_registration_idempotent_witness :
    (addSizeSensor "a" "A" none none none true
        ⟨[("a", ⟨"a", "A", none, none, none⟩)], []⟩ =
      ⟨[("a", ⟨"a", "A", none, none, none⟩)], []⟩) ∧
    ((runSensorRegs true
        [⟨"a", "A", none, none, none⟩, ⟨"a", "A", none, none, none⟩]
        ⟨[], []⟩).announced.count "a" = 1) := by
  constructor
  · exact C4_sensor_registration_idempotent.1 "a" "A" none none none true
      ⟨[("a", ⟨"a", "A", none, none, none⟩)], []⟩ (by decide)
  · have h := C4_sensor_registration_idempotent.2.2
      [⟨"a", "A", none, none, none⟩, ⟨"a", "A", none, none, none⟩] [] "a"
    simpa using h

/-! ## Claim C7: partial writes survive a failing later stage -/

/-- The account stage never touches the software-version field. -/
theorem prepareAccount_sw (r : AccountResponse) (cb : Bool)
    (data : UpdaterData) (reg : SensorReg) :
    (prepareAccount r cb data reg).1.device_sw_version = data.device_sw_version := by
  cases hav : r.avatar_url <;>
    cases ht : r.total <;>
      cases hu : r.usage <;>
        simp only [prepareAccount, hav, ht, hu] <;>
          split_ifs <;> rfl

/-- The server stage stores a present version field. -/
theorem prepareServer_version (r : ServerResponse) (data : UpdaterData) (v : String)
    (h : r.version = some v) :
    (prepareServer r data).device_sw_version = some v := by
  simp [prepareServer, h]

/-- The account stage stores a present avatar URL. -/
theorem prepareAccount_avatar (r : AccountResponse) (cb : Bool)
    (data : UpdaterData) (reg : SensorReg) (a : String) (h : r.avatar_url = some a) :
    (prepareAccount r cb data reg).1.avatar_url = some a := by
  cases ht : r.total <;>
    cases hu : r.usage <;>
      simp only [prepareAccount, h, ht, hu] <;>
        split_ifs <;> rfl

/-- The account stage stores a present non-negative total space value. -/
theorem prepareAccount_total (r : AccountResponse) (cb : Bool)
    (data : UpdaterData) (reg : SensorReg) (t : Int) (h : r.total = some t) (hge : 0 ≤ t) :
    (prepareAccount r cb data reg).1.space_total = some t := by
  cases hav : r.avatar_url <;>
    cases hu : r.usage <;>
      simp only [prepareAccount, h, hav, hu] <;>
        split_ifs <;> rfl

/-- The account stage stores a present non-negative usage space value. -/
theorem prepareAccount_usage (r : AccountResponse) (cb : Bool)
    (data : UpdaterData) (reg : SensorReg) (u : Int) (h : r.usage = some u) (hge : 0 ≤ u) :
    (prepareAccount r cb data reg).1.space_usage = some u := by
  cases hav : r.avatar_url <;>
    cases ht : r.total <;>
      simp only [prepareAccount, h, hav, ht] <;>
        split_ifs <;> rfl

/-- One cycle never changes the config-flow-only flag. -/
theorem update_only_check (env : CycleEnv) (s : UpdaterState) :
    (update env s).updater.is_only_check = s.is_only_check := by
  cases hb : (s.is_reauthorization || s.is_first_update) <;>
    cases hl : env.login <;>
      cases hs : env.server <;>
        cases hoc : s.is_only_check <;>
          cases ha : env.account <;>
            cases hlib : env.libraries <;>
              simp [update, runDataStages, hb, hl, hs, hoc, ha, hlib]

/-- Cycles never change the config-flow-only flag. -/
theorem runCycles_only_check (envs : List CycleEnv) (s : UpdaterState) :
    (runCycles envs s).is_only_check = s.is_only_check := by
  induction envs generalizing s with
  | nil => rfl
  | cons env rest ih => rw [runCycles_cons, ih, update_only_check]

/-- C7.  When the server and account stages of a cycle succeed and the
library-list stage then raises a `SeafileConnectionError`, the returned
snapshot still carries the version, avatar and space fields written by
the earlier stages of this same cycle, its `state` is false, the
reauthorization flag is set, and the next cycle calls `login` first. -/
theorem C7_partial_writes_survive (envs : List CycleEnv) (env env2 : CycleEnv) (cb : Bool)
    (sv : ServerResponse) (ac : AccountResponse)
    (hlogin : ((runCycles envs (initState false cb)).is_reauthorization ||
      (runCycles envs (initState false cb)).is_first_update) = true → env.login = Outcome.ok ())
    (hsv : env.server = .ok sv) (hac : env.account = .ok ac)
    (hlib : env.libraries = .err .connection) :
    (∀ v, sv.version = some v →
      (update env (runCycles envs (initState false cb))).snapshot.device_sw_version = some v) ∧
    (∀ a, ac.avatar_url = some a →
      (update env (runCycles envs (initState false cb))).snapshot.avatar_url = some a) ∧
    (∀ t, ac.total = some t → 0 ≤ t →
      (update env (runCycles envs (initState false cb))).snapshot.space_total = some t) ∧
    (∀ u, ac.usage = some u → 0 ≤ u →
      (update env (runCycles envs (initState false cb))).snapshot.space_usage = some u) ∧
    ((update env (runCycles envs (initState false cb))).snapshot.state = some false) ∧
    ((update env (runCycles envs (initState false cb))).updater.is_reauthorization = true) ∧
    (∃ rest, (update env2 (update env (runCycles envs (initState false cb))).updater).calls =
      ClientCall.login :: rest) := by
  have hoc : (runCycles envs (initState false cb)).is_only_check = false := by
    rw [runCycles_only_check]
    rfl
  have hfail : cycleOk env (runCycles envs (initState false cb)) = false := by
    simp [cycleOk, hoc, hlib, Outcome.isOk]
  have hlog : (if (runCycles envs (initState false cb)).is_reauthorization ||
      (runCycles envs (initState false cb)).is_first_update then env.login
      else Outcome.ok ()) = Outcome.ok () := by
    by_cases hb : ((runCycles envs (initState false cb)).is_reauthorization ||
        (runCycles envs (initState false cb)).is_first_update) = true
    · rw [if_pos hb]
      exact hlogin hb
    · rw [if_neg (by simpa using hb)]
  refine ⟨fun v hv => ?_, fun a ha => ?_, fun t ht hge => ?_, fun u hu hge => ?_, ?_, ?_, ?_⟩
  · simp only [update, runDataStages, hlog, hsv, hoc, hac, hlib, Bool.false_eq_true, if_false]
    simp [prepareAccount_sw, prepareServer_version _ _ _ hv]
  · simp only [update, runDataStages, hlog, hsv, hoc, hac, hlib, Bool.false_eq_true, if_false]
    simp [prepareAccount_avatar _ _ _ _ _ ha]
  · simp only [update, runDataStages, hlog, hsv, hoc, hac, hlib, Bool.false_eq_true, if_false]
    simp [prepareAccount_total _ _ _ _ _ ht hge]
  · simp only [update, runDataStages, hlog, hsv, hoc, hac, hlib, Bool.false_eq_true, if_false]
    simp [prepareAccount_usage _ _ _ _ _ hu hge]
  · rw [update_snapshot_eq, update_state_eq, hfail]
  · rw [update_reauth, hfail]
    rfl
  · apply update_calls_login
    rw [update_reauth, hfail]
    rfl

/-- Witness for C7 at a concrete first cycle: server and account data
survive the library-stage connection error. -/
theorem C7_partial_writes_survive_witness :
    ((update
      ⟨.ok (), .ok ⟨some "9.0.2"⟩, .ok ⟨some "http://s/a.png", some 100, some 50⟩,
        .err .connection⟩
      (runCycles [] (initState false true))).snapshot.device_sw_version = some "9.0.2") ∧
    ((update
      ⟨.ok (), .ok ⟨some "9.0.2"⟩, .ok ⟨some "http://s/a.png", some 100, some 50⟩,
        .err .connection⟩
      (runCycles [] (initState false true))).snapshot.space_total = some 100) ∧
    ((update
      ⟨.ok (), .ok ⟨some "9.0.2"⟩, .ok ⟨some "http://s/a.png", some 100, some 50⟩,
        .err .connection⟩
      (runCycles [] (initState false true))).snapshot.state = some false) := by
  have h := C7_partial_writes_survive []
    ⟨.ok (), .ok ⟨some "9.0.2"⟩, .ok ⟨some "http://s/a.png", some 100, some 50⟩,
      .err .connection⟩
    ⟨.ok (), .ok ⟨some "9.0.2"⟩, .ok ⟨some "http://s/a.png", some 100, some 50⟩,
      .err .connection⟩
    true ⟨some "9.0.2"⟩ ⟨some "http://s/a.png", some 100, some 50⟩
    (fun _ => rfl) rfl rfl rfl
  exact ⟨h.1 "9.0.2" rfl, h.2.2.1 100 rfl (by decide), h.2.2.2.2.1⟩

/-! ## Claim C6: error message construction -/

/-- The fragment loop of `_raise` collects exactly the per-field
fragments: non-empty strings verbatim, non-empty lists joined with `"; "`
and prefixed with the field name, everything else skipped. -/
theorem raiseFragments_eq_filterMap (fields : List (String × PyVal)) :
    raiseFragments fields = fields.filterMap (fun p => fragmentOf p.1 p.2) := by
  induction fields with
  | nil => rfl
  | cons hd tl ih =>
    obtain ⟨field, v⟩ := hd
    cases v with
    | vstr s =>
      by_cases hs : s.isEmpty = true
      · simp [raiseFragments, fragmentOf, PyVal.truthy, hs, ih, List.filterMap_cons]
      · simp [raiseFragments, fragmentOf, PyVal.truthy, eq_false_of_ne_true hs, ih,
          List.filterMap_cons]
    | vlist xs =>
      rcases eq_or_ne xs [] with hs | hs
      · subst hs
        simp [raiseFragments, fragmentOf, PyVal.truthy, ih, List.filterMap_cons]
      · simp [raiseFragments, fragmentOf, PyVal.truthy, hs, ih, List.filterMap_cons]
    | vother t =>
      cases t <;> simp [raiseFragments, fragmentOf, PyVal.truthy, ih, List.filterMap_cons]

/-- C6.  For every JSON error body received with HTTP status at least
400, the client raises a `SeafileRequestError` whose message joins the
per-field fragments with `".\n"` (a non-empty string value verbatim, a
non-empty list value joined with `"; "` and prefixed with
`"<field>: "`); an empty body, a list body, or a body yielding no
fragments gives the generic `"Request error."`; in particular the body
`non_field_errors: ["bad creds"]` yields `"non_field_errors: bad creds"`. -/
theorem C6_request_error_message (status : Nat) (body : RaiseBody) (h : 400 ≤ status) :
    (requestResult (.response status body) = .reqErr (raiseMessage body)) ∧
    (∀ fields : List (String × PyVal),
      raiseMessage (.bdict fields) =
        (if fields.filterMap (fun p => fragmentOf p.1 p.2) = [] then "Request error."
         else String.intercalate ".\n" (fields.filterMap (fun p => fragmentOf p.1 p.2)))) ∧
    (∀ xs : List PyVal, raiseMessage (.blist xs) = "Request error.") ∧
    (raiseMessage (.bdict [("non_field_errors", .vlist ["bad creds"])]) =
      "non_field_errors: bad creds") := by
  refine ⟨by simp [requestResult, h], fun fields => ?_, fun xs => rfl, by rfl⟩
  cases fields with
  | nil => rfl
  | cons hd tl =>
    simp only [raiseMessage, List.isEmpty_cons, Bool.false_eq_true, if_false,
      raiseFragments_eq_filterMap, List.isEmpty_iff]

/-- Witness for C6 at status 400 and the scenario body from the spec. -/
theorem C6_request_error_message_witness :
    requestResult (.response 400 (.bdict [("non_field_errors", .vlist ["bad creds"])])) =
      .reqErr "non_field_errors: bad creds" := by
  have h := C6_request_error_message 400
    (.bdict [("non_field_errors", .vlist ["bad creds"])]) (by decide)
  rw [h.1, h.2.2.2]

/-! ## Claim C8: early 404 for invalid repository ids -/

/-- C8.  Whenever the entry id resolves to an updater but the repository
id is not a valid UUID, the thumbnail proxy answers 404 with body exactly
`Unable to find library with id: <value>` and performs no API-client
call. -/
theorem C8_thumbnail_rejects_invalid_uuid (env : ViewEnv) (entry_id repo_id : String)
    (size : Nat) (file_path : String)
    (h1 : env.entry_found = true) (h2 : is_valid_uuid repo_id = false) :
    thumbnailGet env entry_id repo_id size file_path =
      (⟨404, .text ("Unable to find library with id: " ++ repo_id)⟩, []) := by
  simp [thumbnailGet, h1, h2]

/-- Witness for C8: a found entry with the malformed repository id
`not-a-uuid` is rejected with the exact message and an empty call list. -/
theorem C8_thumbnail_rejects_invalid_uuid_witness :
    thumbnailGet ⟨true, some "image/jpeg", .ok [], .ok [1, 2], none, []⟩
        "entry1" "not-a-uuid" 256 "a.jpg" =
      (⟨404, .text "Unable to find library with id: not-a-uuid"⟩, []) :=
  C8_thumbnail_rejects_invalid_uuid ⟨true, some "image/jpeg", .ok [], .ok [1, 2], none, []⟩
    "entry1" "not-a-uuid" 256 "a.jpg" rfl (by decide)

/-! ## String-replacement infrastructure -/

/-- The fuel-driven replacement worker ignores the exact fuel amount as
long as it covers the list length. -/
theorem replaceSubFuel_eq (pat rep : List Char) :
    ∀ f1 f2 (l : List Char), l.length ≤ f1 → l.length ≤ f2 →
      replaceSubFuel pat rep f1 l = replaceSubFuel pat rep f2 l := by
  intro f1
  induction f1 with
  | zero =>
    intro f2 l h1 h2
    have : l = [] := List.length_eq_zero.mp (Nat.le_zero.mp h1)
    subst this
    cases f2 <;> rfl
  | succ f1 ih =>
    intro f2 l h1 h2
    cases l with
    | nil => cases f2 <;> rfl
    | cons c rest =>
      cases f2 with
      | zero => simp at h2
      | succ f2 =>
        simp only [replaceSubFuel]
        by_cases hp : pat.isEmpty
        · simp [hp]
        · simp only [hp, Bool.false_eq_true, if_false]
          by_cases hst : listStarts pat (c :: rest)
          · simp only [hst, if_true]
            have hplen : 1 ≤ pat.length := by
              cases pat
              · simp [List.isEmpty] at hp
              · simp
            have hd : ((c :: rest).drop pat.length).length ≤ f1 := by
              simp only [List.length_drop, List.length_cons] at *
              omega
            have hd2 : ((c :: rest).drop pat.length).length ≤ f2 := by
              simp only [List.length_drop, List.length_cons] at *
              omega
            rw [ih f2 _ hd hd2]
          · simp only [hst, Bool.false_eq_true, if_false]
            have hr1 : rest.length ≤ f1 := by
              simp only [List.length_cons] at h1
              omega
            have hr2 : rest.length ≤ f2 := by
              simp only [List.length_cons] at h2
              omega
            rw [ih f2 rest hr1 hr2]

/-- Replacement on a list whose head starts the pattern: emit the
replacement and continue after the consumed occurrence. -/
theorem replaceSub_cons_match (pat rep : List Char) (c : Char) (rest : List Char)
    (hp : pat.isEmpty = false) (hst : listStarts pat (c :: rest) = true) :
    replaceSub pat rep (c :: rest) =
      rep ++ replaceSub pat rep ((c :: rest).drop pat.length) := by
  show replaceSubFuel pat rep (c :: rest).length (c :: rest) = _
  simp only [List.length_cons, replaceSubFuel, hp, Bool.false_eq_true, if_false, hst, if_true]
  have hplen : 1 ≤ pat.length := by
    cases pat
    · simp [List.isEmpty] at hp
    · simp
  rw [replaceSubFuel_eq pat rep rest.length ((c :: rest).drop pat.length).length _
    (by simp only [List.length_drop, List.length_cons]; omega) (Nat.le_refl _)]
  rfl

/-- Replacement on a list whose head does not start the pattern: keep the
head and continue on the tail. -/
theorem replaceSub_cons_nomatch (pat rep : List Char) (c : Char) (rest : List Char)
    (hst : listStarts pat (c :: rest) = false) :
    replaceSub pat rep (c :: rest) = c :: replaceSub pat rep rest := by
  have hp : pat.isEmpty = false := by
    cases pat
    · simp [listStarts] at hst
    · simp [List.isEmpty]
  show replaceSubFuel pat rep (c :: rest).length (c :: rest) = _
  simp only [List.length_cons, replaceSubFuel, hp, Bool.false_eq_true, if_false, hst]
  rfl

/-- Replacement with an empty pattern leaves any list unchanged. -/
theorem replaceSub_empty_pat (rep l : List Char) : replaceSub [] rep l = l := by
  cases l with
  | nil => rfl
  | cons c rest =>
    show replaceSubFuel [] rep (c :: rest).length (c :: rest) = c :: rest
    simp [replaceSubFuel, List.isEmpty]

/-- A replacement whose pattern head occurs nowhere leaves the list
unchanged. -/
theorem replaceSub_eq_self (pat rep : List Char) :
    ∀ l : List Char, (∀ c ∈ l, ∀ p, pat.head? = some p → p ≠ c) →
      replaceSub pat rep l = l := by
  intro l
  induction l with
  | nil => intro _; rfl
  | cons c rest ih =>
    intro h
    cases pat with
    | nil => exact replaceSub_empty_pat rep (c :: rest)
    | cons p ps =>
      have hst : listStarts (p :: ps) (c :: rest) = false := by
        simp only [listStarts, Bool.and_eq_false_iff]
        left
        simp only [beq_eq_false_iff_ne, ne_eq]
        exact h c (List.mem_cons_self c rest) p rfl
      rw [replaceSub_cons_nomatch _ rep c rest hst,
        ih (fun a ha q hq => h a (List.mem_cons_of_mem c ha) q hq)]

/-- Single-character replacement acts independently on every character. -/
theorem replaceSub_single (a : Char) (rep : List Char) (l : List Char) :
    replaceSub [a] rep l = l.flatMap (fun c => if c = a then rep else [c]) := by
  induction l with
  | nil => rfl
  | cons c rest ih =>
    by_cases hc : c = a
    · subst hc
      rw [replaceSub_cons_match [c] rep c rest rfl (by simp [listStarts])]
      simp [ih]
    · rw [replaceSub_cons_nomatch [a] rep c rest
        (by simp [listStarts, beq_eq_false_iff_ne, Ne.symm hc])]
      simp [ih, hc]

/-! ## Hexadecimal rendering and parsing -/

/-- Lowercase hexadecimal digits evaluate back to their value. -/
theorem hexDigitVal_lower : ∀ d : Nat, d < 16 → hexDigitVal (hexDigitLower d) = some d := by
  decide

/-- Uppercase hexadecimal digits evaluate back to their value. -/
theorem hexDigitVal_upper : ∀ d : Nat, d < 16 → hexDigitVal (hexDigitUpper d) = some d := by
  decide

/-- A parsed hexadecimal digit is below 16. -/
theorem hexDigitVal_lt (c : Char) (d : Nat) (h : hexDigitVal c = some d) : d < 16 := by
  unfold hexDigitVal at h
  split_ifs at h <;> (injection h with h; omega)

/-- The fixed-width rendering has the requested width. -/
theorem toHexLower_length (k : Nat) : ∀ n, (toHexLower k n).length = k := by
  induction k with
  | zero => intro n; rfl
  | succ k ih =>
    intro n
    simp [toHexLower, ih]

/-- Every character of the fixed-width rendering is a lowercase
hexadecimal digit. -/
theorem toHexLower_chars (k : Nat) :
    ∀ n, ∀ c ∈ toHexLower k n, c ∈ "0123456789abcdef".toList := by
  induction k with
  | zero => intro n c hc; simp [toHexLower] at hc
  | succ k ih =>
    intro n c hc
    simp only [toHexLower, List.mem_append, List.mem_singleton] at hc
    rcases hc with hc | hc
    · exact ih _ c hc
    · subst hc
      have hlt : n % 16 < 16 := Nat.mod_lt _ (by omega)
      revert hlt
      generalize n % 16 = d
      revert d
      decide

/-- Folding the parser over a rendering appends the rendered value to the
accumulator. -/
theorem parseHex_go (k : Nat) :
    ∀ n a : Nat, n < 16 ^ k →
      List.foldl parseHexStep (some a) (toHexLower k n) = some (a * 16 ^ k + n) := by
  induction k with
  | zero =>
    intro n a h
    have : n = 0 := by omega
    subst this
    simp [toHexLower]
  | succ k ih =>
    intro n a h
    have hdiv : n / 16 < 16 ^ k := by
      rw [Nat.div_lt_iff_lt_mul (by omega)]
      calc n < 16 ^ (k + 1) := h
        _ = 16 ^ k * 16 := by rw [Nat.pow_succ]
    simp only [toHexLower, List.foldl_append, ih (n / 16) a hdiv, List.foldl_cons,
      List.foldl_nil, parseHexStep, hexDigitVal_lower (n % 16) (Nat.mod_lt _ (by omega))]
    congr 1
    calc (a * 16 ^ k + n / 16) * 16 + n % 16
        = a * (16 ^ k * 16) + (16 * (n / 16) + n % 16) := by ring
      _ = a * 16 ^ (k + 1) + n := by rw [Nat.div_add_mod, ← Nat.pow_succ]

/-- Parsing inverts the fixed-width rendering. -/
theorem parseHex_toHex (k n : Nat) (h : n < 16 ^ k) :
    parseHexDigits (toHexLower k n) = some n := by
  unfold parseHexDigits
  rw [parseHex_go k n 0 h]
  simp

/-- A failed parse stays failed. -/
theorem parseHex_none (l : List Char) : List.foldl parseHexStep none l = none := by
  induction l with
  | nil => rfl
  | cons c rest ih =>
    have h : parseHexStep none c = none := rfl
    rw [List.foldl_cons, h, ih]

/-- A parsed hexadecimal string denotes a value bounded by the width. -/
theorem parseHex_lt (l : List Char) :
    ∀ a n : Nat, List.foldl parseHexStep (some a) l = some n → n < (a + 1) * 16 ^ l.length := by
  induction l with
  | nil =>
    intro a n h
    injection h with h
    subst h
    simp
  | cons c rest ih =>
    intro a n h
    rw [List.foldl_cons] at h
    cases hv : hexDigitVal c with
    | none =>
      rw [show parseHexStep (some a) c = none by simp [parseHexStep, hv], parseHex_none] at h
      cases h
    | some d =>
      rw [show parseHexStep (some a) c = some (a * 16 + d) by simp [parseHexStep, hv]] at h
      have hd : d < 16 := hexDigitVal_lt c d hv
      have hb := ih (a * 16 + d) n h
      calc n < (a * 16 + d + 1) * 16 ^ rest.length := hb
        _ ≤ ((a + 1) * 16) * 16 ^ rest.length := by
          apply Nat.mul_le_mul_right
          omega
        _ = (a + 1) * 16 ^ (c :: rest).length := by
          rw [List.length_cons, Nat.pow_succ]
          ring

/-- A successfully parsed string of hexadecimal digits is bounded by
16 to the string length. -/
theorem parseHexDigits_lt (l : List Char) (n : Nat) (h : parseHexDigits l = some n) :
    n < 16 ^ l.length := by
  have hb := parseHex_lt l 0 n h
  simpa using hb

/-! ## Claim C10: UUID validation accepts exactly the canonical form -/

/-- Lowercase hexadecimal digits are also hexadecimal-or-hyphen
characters. -/
theorem hexChar_mem_dash (a : Char) (h : a ∈ "0123456789abcdef".toList) :
    a ∈ "0123456789abcdef-".toList := by
  fin_cases h <;> decide

/-- Lowercase hexadecimal digits are not hyphens. -/
theorem hexChar_ne_dash (c : Char) (h : c ∈ "0123456789abcdef".toList) : ¬c = '-' := by
  fin_cases h <;> decide

/-- Characters of the canonical rendering are never `u`. -/
theorem hexDashChar_ne_u (c : Char) (h : c ∈ "0123456789abcdef-".toList) : ¬('u' = c) := by
  fin_cases h <;> decide

/-- Characters of the canonical rendering are never braces. -/
theorem hexDashChar_not_brace (c : Char) (h : c ∈ "0123456789abcdef-".toList) :
    (['{', '}'].contains c) = false := by
  fin_cases h <;> decide

/-- Characters of an assembled rendering of a hexadecimal string are
hexadecimal digits or hyphens. -/
theorem uuidAssemble_chars (l : List Char)
    (hl : ∀ a ∈ l, a ∈ "0123456789abcdef".toList) :
    ∀ c ∈ uuidAssemble l, c ∈ "0123456789abcdef-".toList := by
  intro c hc
  have hhex : ∀ a ∈ l, a ∈ "0123456789abcdef-".toList :=
    fun a ha => hexChar_mem_dash a (hl a ha)
  simp only [uuidAssemble, List.mem_append, List.mem_cons] at hc
  rcases hc with (((hc | hc | hc) | hc | hc) | hc | hc) | hc | hc
  · exact hhex c (List.mem_of_mem_take hc)
  · subst hc; decide
  · exact hhex c (List.mem_of_mem_drop (List.mem_of_mem_take hc))
  · subst hc; decide
  · exact hhex c (List.mem_of_mem_drop (List.mem_of_mem_take hc))
  · subst hc; decide
  · exact hhex c (List.mem_of_mem_drop (List.mem_of_mem_take hc))
  · subst hc; decide
  · exact hhex c (List.mem_of_mem_drop hc)

/-- Characters of the canonical UUID rendering are lowercase hexadecimal
digits or hyphens. -/
theorem uuidStr_chars (n : Nat) :
    ∀ c ∈ uuidStrOfNat n, c ∈ "0123456789abcdef-".toList :=
  uuidAssemble_chars (toHexLower 32 n) (toHexLower_chars 32 n)

/-- Dropping the hyphens of an assembled hexadecimal string recovers the
plain form. -/
theorem uuidAssemble_strip_dashes (l : List Char)
    (hl : ∀ a ∈ l, a ∈ "0123456789abcdef".toList) :
    replaceSub ['-'] [] (uuidAssemble l) = l := by
  have hnd : ∀ t : List Char, (∀ c ∈ t, c ∈ "0123456789abcdef".toList) →
      t.flatMap (fun c => if c = '-' then ([] : List Char) else [c]) = t := by
    intro t ht
    induction t with
    | nil => rfl
    | cons c rest ih =>
      have hcd : ¬c = '-' := hexChar_ne_dash c (ht c (List.mem_cons_self c rest))
      simp only [List.flatMap_cons, hcd, if_false]
      rw [ih (fun a ha => ht a (List.mem_cons_of_mem c ha))]
      rfl
  rw [replaceSub_single]
  simp only [uuidAssemble, List.flatMap_append, List.flatMap_cons, if_pos rfl,
    List.nil_append, ite_true, if_true, List.append_assoc]
  rw [hnd _ (fun c hc => hl c (List.mem_of_mem_take hc)),
    hnd _ (fun c hc => hl c (List.mem_of_mem_drop (List.mem_of_mem_take hc))),
    hnd _ (fun c hc => hl c (List.mem_of_mem_drop (List.mem_of_mem_take hc))),
    hnd _ (fun c hc => hl c (List.mem_of_mem_drop (List.mem_of_mem_take hc))),
    hnd _ (fun c hc => hl c (List.mem_of_mem_drop hc))]
  have h20 : List.take 4 (List.drop 16 l) ++ List.drop 20 l = List.drop 16 l := by
    have hx := List.drop_take_append_drop l 16 4
    norm_num at hx
    exact hx
  have h16 : List.take 4 (List.drop 12 l) ++ List.drop 16 l = List.drop 12 l := by
    have hx := List.drop_take_append_drop l 12 4
    norm_num at hx
    exact hx
  have h12 : List.take 4 (List.drop 8 l) ++ List.drop 12 l = List.drop 8 l := by
    have hx := List.drop_take_append_drop l 8 4
    norm_num at hx
    exact hx
  rw [h20, h16, h12, List.take_append_drop]

/-- The assembled form of a 32-character string has no leading or
trailing brace and never contains one. -/
theorem uuidAssemble_no_brace (l : List Char)
    (hl : ∀ a ∈ l, a ∈ "0123456789abcdef".toList) :
    stripChars ['{', '}'] (uuidAssemble l) = uuidAssemble l := by
  have hdw : ∀ t : List Char, (∀ c ∈ t, (['{', '}'].contains c) = false) →
      t.dropWhile (fun c => ['{', '}'].contains c) = t := by
    intro t ht
    cases t with
    | nil => rfl
    | cons c rest =>
      rw [List.dropWhile_cons, ht c (List.mem_cons_self c rest)]
      simp
  have hbr : ∀ c ∈ uuidAssemble l, (['{', '}'].contains c) = false :=
    fun c hc => hexDashChar_not_brace c (uuidAssemble_chars l hl c hc)
  unfold stripChars
  rw [hdw _ hbr, hdw _ (fun c hc => hbr c (List.mem_reverse.mp hc)), List.reverse_reverse]

/-- Parsing the canonical rendering of a 128-bit value recovers it. -/
theorem pyUuidParse_uuidStr (n : Nat) (h : n < 2 ^ 128) :
    pyUuidParse (uuidStrOfNat n) = some n := by
  have hchars := uuidStr_chars n
  have hnu : ∀ c ∈ uuidStrOfNat n, ∀ p : Char, p = 'u' → ¬(p = c) := by
    intro c hc p hp
    subst hp
    exact hexDashChar_ne_u c (hchars c hc)
  have hfun1 : ∀ c ∈ uuidStrOfNat n, ∀ p : Char,
      "urn:".toList.head? = some p → p ≠ c :=
    fun c hc p hp => hnu c hc p (by injection hp with hq; exact hq.symm)
  have hfun2 : ∀ c ∈ uuidStrOfNat n, ∀ p : Char,
      "uuid:".toList.head? = some p → p ≠ c :=
    fun c hc p hp => hnu c hc p (by injection hp with hq; exact hq.symm)
  have e1 : replaceSub "urn:".toList [] (uuidStrOfNat n) = uuidStrOfNat n :=
    replaceSub_eq_self "urn:".toList [] (uuidStrOfNat n) hfun1
  have e2 : replaceSub "uuid:".toList [] (uuidStrOfNat n) = uuidStrOfNat n :=
    replaceSub_eq_self "uuid:".toList [] (uuidStrOfNat n) hfun2
  have e3 : stripChars ['{', '}'] (uuidStrOfNat n) = uuidStrOfNat n :=
    uuidAssemble_no_brace (toHexLower 32 n) (toHexLower_chars 32 n)
  have e4 : replaceSub ['-'] [] (uuidStrOfNat n) = toHexLower 32 n :=
    uuidAssemble_strip_dashes (toHexLower 32 n) (toHexLower_chars 32 n)
  simp only [pyUuidParse, e1, e2, e3, e4, toHexLower_length]
  norm_num
  exact parseHex_toHex 32 n (by norm_num at h ⊢; exact h)

/-- Replacing the variant field is the identity when the field already
holds the RFC 4122 value. -/
theorem setBitField_62_id (n : Nat) (h : n / 2 ^ 62 % 4 = 2) :
    setBitField 62 2 2 n = n := by
  unfold setBitField
  norm_num at h ⊢
  omega

/-- Replacing the version field is the identity when the field already
holds version 4. -/
theorem setBitField_76_id (n : Nat) (h : n / 2 ^ 76 % 16 = 4) :
    setBitField 76 4 4 n = n := by
  unfold setBitField
  norm_num at h ⊢
  omega

/-- The forced value is unchanged when both fields are already correct. -/
theorem forceVersion4Variant_id (n : Nat) (hv : n / 2 ^ 76 % 16 = 4)
    (hvar : n / 2 ^ 62 % 4 = 2) : forceVersion4Variant n = n := by
  unfold forceVersion4Variant
  rw [setBitField_62_id n hvar, setBitField_76_id n hv]

/-- The variant overwrite establishes the RFC 4122 variant field. -/
theorem setBitField_62_field (n : Nat) : setBitField 62 2 2 n / 2 ^ 62 % 4 = 2 := by
  unfold setBitField
  norm_num
  omega

/-- The version overwrite establishes the version-4 field. -/
theorem setBitField_76_field (n : Nat) : setBitField 76 4 4 n / 2 ^ 76 % 16 = 4 := by
  unfold setBitField
  norm_num
  omega

/-- The version overwrite does not disturb the variant field. -/
theorem setBitField_76_keeps_62 (n : Nat) :
    setBitField 76 4 4 n / 2 ^ 62 % 4 = n / 2 ^ 62 % 4 := by
  unfold setBitField
  norm_num
  omega

/-- The overwrites keep 128-bit values within 128 bits. -/
theorem forceVersion4Variant_lt (n : Nat) (h : n < 2 ^ 128) :
    forceVersion4Variant n < 2 ^ 128 := by
  unfold forceVersion4Variant setBitField
  norm_num at h ⊢
  omega

/-- The forced value always carries the version-4 and variant fields. -/
theorem forceVersion4Variant_fields (n : Nat) :
    forceVersion4Variant n / 2 ^ 76 % 16 = 4 ∧ forceVersion4Variant n / 2 ^ 62 % 4 = 2 := by
  constructor
  · exact setBitField_76_field _
  · rw [forceVersion4Variant, setBitField_76_keeps_62]
    exact setBitField_62_field n

/-- A successful parse of any string yields a 128-bit value. -/
theorem pyUuidParse_lt (l : List Char) (n : Nat) (h : pyUuidParse l = some n) :
    n < 2 ^ 128 := by
  simp only [pyUuidParse] at h
  split_ifs at h with hlen
  have hb := parseHexDigits_lt _ n h
  rw [hlen] at hb
  norm_num at hb ⊢
  exact hb

set_option maxHeartbeats 1000000 in
/-- C10.  `is_valid_uuid` accepts exactly the canonical rendering: it
returns true iff the string is the lowercase hyphenated form of a 128-bit
value whose version field is 4 and whose variant field is the RFC 4122
`10` pattern; uppercase, braced, urn-prefixed and hyphenless spellings of
an otherwise valid UUID are all rejected. -/
theorem C10_is_valid_uuid_canonical :
    (∀ s : String, is_valid_uuid s = true ↔
      ∃ n : Nat, n < 2 ^ 128 ∧ n / 2 ^ 76 % 16 = 4 ∧ n / 2 ^ 62 % 4 = 2 ∧
        s.toList = uuidStrOfNat n) ∧
    is_valid_uuid "12345678-1234-4234-8234-123456789ABC" = false ∧
    is_valid_uuid "{12345678-1234-4234-8234-123456789abc}" = false ∧
    is_valid_uuid "urn:uuid:12345678-1234-4234-8234-123456789abc" = false ∧
    is_valid_uuid "12345678123442348234123456789abc" = false := by
  refine ⟨fun s => ⟨fun h => ?_, fun h => ?_⟩, by decide, by decide, by decide, by decide⟩
  · unfold is_valid_uuid at h
    cases hp : pyUuidParse s.toList with
    | none =>
      rw [hp] at h
      simp at h
    | some n0 =>
      rw [hp] at h
      have heq : uuidStrOfNat (forceVersion4Variant n0) = s.toList := eq_of_beq h
      refine ⟨forceVersion4Variant n0,
        forceVersion4Variant_lt n0 (pyUuidParse_lt _ _ hp),
        (forceVersion4Variant_fields n0).1,
        (forceVersion4Variant_fields n0).2, heq.symm⟩
  · obtain ⟨n, hlt, hv, hvar, hs⟩ := h
    have hp : pyUuidParse s.toList = some n := by
      rw [hs]
      exact pyUuidParse_uuidStr n hlt
    unfold is_valid_uuid
    rw [hp]
    show (uuidStrOfNat (forceVersion4Variant n) == s.toList) = true
    rw [forceVersion4Variant_id n hv hvar, hs]
    exact beq_self_eq_true _

set_option maxHeartbeats 1000000 in
/-- Witness for C10: a canonical version-4 UUID string is accepted. -/
theorem C10_is_valid_uuid_canonical_witness :
    is_valid_uuid "12345678-1234-4234-8234-123456789abc" = true :=
  (C10_is_valid_uuid_canonical.1 "12345678-1234-4234-8234-123456789abc").mpr
    ⟨0x12345678123442348234123456789abc, by norm_num, by norm_num, by norm_num, by decide⟩

/-! ## Claim C9: path encode/decode round trip

Equation lemmas for the fuel-driven percent decoder and UTF-8 decoder. -/

/-- The fuel-driven percent decoder ignores the exact fuel amount as long
as it covers the list length. -/
theorem pctToBytesFuel_eq :
    ∀ f1 f2 (l : List Char), l.length ≤ f1 → l.length ≤ f2 →
      pctToBytesFuel f1 l = pctToBytesFuel f2 l := by
  intro f1
  induction f1 with
  | zero =>
    intro f2 l h1 h2
    have : l = [] := List.length_eq_zero.mp (Nat.le_zero.mp h1)
    subst this
    cases f2 <;> rfl
  | succ f1 ih =>
    intro f2 l h1 h2
    cases l with
    | nil => cases f2 <;> rfl
    | cons c rest =>
      cases f2 with
      | zero => simp at h2
      | succ f2 =>
        simp only [List.length_cons, Nat.add_le_add_iff_right] at h1 h2
        simp only [pctToBytesFuel]
        by_cases hc : c = '%'
        · simp only [hc, if_true]
          cases rest with
          | nil => rw [ih f2 [] (by simp) (by simp)]
          | cons h1c rest1 =>
            cases rest1 with
            | nil =>
              rw [ih f2 [h1c] (by simpa using h1) (by simpa using h2)]
            | cons h2c rest2 =>
              cases hv1 : hexDigitVal h1c with
              | none =>
                simp only [hv1]
                rw [ih f2 (h1c :: h2c :: rest2) h1 h2]
              | some d1 =>
                cases hv2 : hexDigitVal h2c with
                | none =>
                  simp only [hv1, hv2]
                  rw [ih f2 (h1c :: h2c :: rest2) h1 h2]
                | some d2 =>
                  simp only [hv1, hv2]
                  have hr : rest2.length ≤ f1 := by
                    simp only [List.length_cons] at h1
                    omega
                  have hr2 : rest2.length ≤ f2 := by
                    simp only [List.length_cons] at h2
                    omega
                  rw [ih f2 rest2 hr hr2]
        · simp only [hc, if_false]
          rw [ih f2 rest h1 h2]

/-- Decoding a non-percent character contributes its UTF-8 bytes. -/
theorem pctToBytes_cons_plain (c : Char) (rest : List Char) (h : ¬c = '%') :
    pctToBytes (c :: rest) = utf8EncodeNat c.toNat ++ pctToBytes rest := by
  show pctToBytesFuel (c :: rest).length (c :: rest) = _
  simp only [List.length_cons, pctToBytesFuel, h, if_false]
  rfl

/-- Decoding a well-formed percent escape yields its byte. -/
theorem pctToBytes_pct (h1 h2 : Char) (rest : List Char) (d1 d2 : Nat)
    (hv1 : hexDigitVal h1 = some d1) (hv2 : hexDigitVal h2 = some d2) :
    pctToBytes ('%' :: h1 :: h2 :: rest) = (d1 * 16 + d2) :: pctToBytes rest := by
  show pctToBytesFuel ('%' :: h1 :: h2 :: rest).length ('%' :: h1 :: h2 :: rest) = _
  simp only [List.length_cons, pctToBytesFuel, if_pos rfl, hv1, hv2]
  rw [pctToBytesFuel_eq (rest.length + 1 + 1) rest.length rest (by omega) (Nat.le_refl _)]
  rfl

/-- The fuel-driven UTF-8 decoder ignores the exact fuel amount as long
as it covers the list length. -/
theorem utf8DecodeFuel_eq :
    ∀ f1 f2 (l : List Nat), l.length ≤ f1 → l.length ≤ f2 →
      utf8DecodeFuel f1 l = utf8DecodeFuel f2 l := by
  intro f1
  induction f1 with
  | zero =>
    intro f2 l h1 h2
    have : l = [] := List.length_eq_zero.mp (Nat.le_zero.mp h1)
    subst this
    cases f2 <;> rfl
  | succ f1 ih =>
    intro f2 l h1 h2
    cases l with
    | nil => cases f2 <;> rfl
    | cons b rest =>
      cases f2 with
      | zero => simp at h2
      | succ f2 =>
        simp only [List.length_cons, Nat.add_le_add_iff_right] at h1 h2
        simp only [utf8DecodeFuel]
        by_cases hb1 : b < 128
        · simp only [hb1, if_true]
          rw [ih f2 rest h1 h2]
        · simp only [hb1, if_false]
          by_cases hb2 : 194 ≤ b ∧ b ≤ 223
          · simp only [hb2, and_self, if_true]
            cases rest with
            | nil => rfl
            | cons b1 rest1 =>
              by_cases hc1 : 128 ≤ b1 ∧ b1 ≤ 191
              · simp only [hc1, and_self, if_true]
                rw [ih f2 rest1 (by simp only [List.length_cons] at h1; omega)
                  (by simp only [List.length_cons] at h2; omega)]
              · simp only [hc1, if_false]
                rw [ih f2 (b1 :: rest1) h1 h2]
          · simp only [hb2, if_false]
            by_cases hb3 : 224 ≤ b ∧ b ≤ 239
            · simp only [hb3, and_self, if_true]
              cases rest with
              | nil => rw [ih f2 [] (by simp) (by simp)]
              | cons b1 rest1 =>
                cases rest1 with
                | nil => rw [ih f2 [b1] h1 h2]
                | cons b2 rest2 =>
                  by_cases hc : (utf8Cont2Lo b ≤ b1 ∧ b1 ≤ utf8Cont2Hi b) ∧
                      (128 ≤ b2 ∧ b2 ≤ 191)
                  · simp only [hc, and_self, if_true]
                    rw [ih f2 rest2 (by simp only [List.length_cons] at h1; omega)
                      (by simp only [List.length_cons] at h2; omega)]
                  · simp only [hc, if_false]
                    rw [ih f2 (b1 :: b2 :: rest2) h1 h2]
            · simp only [hb3, if_false]
              by_cases hb4 : 240 ≤ b ∧ b ≤ 244
              · simp only [hb4, and_self, if_true]
                cases rest with
                | nil => rw [ih f2 [] (by simp) (by simp)]
                | cons b1 rest1 =>
                  cases rest1 with
                  | nil => rw [ih f2 [b1] h1 h2]
                  | cons b2 rest2 =>
                    cases rest2 with
                    | nil => rw [ih f2 [b1, b2] h1 h2]
                    | cons b3 rest3 =>
                      by_cases hc : (utf8Cont3Lo b ≤ b1 ∧ b1 ≤ utf8Cont3Hi b) ∧
                          (128 ≤ b2 ∧ b2 ≤ 191) ∧ (128 ≤ b3 ∧ b3 ≤ 191)
                      · simp only [hc, and_self, if_true]
                        rw [ih f2 rest3 (by simp only [List.length_cons] at h1; omega)
                          (by simp only [List.length_cons] at h2; omega)]
                      · simp only [hc, if_false]
                        rw [ih f2 (b1 :: b2 :: b3 :: rest3) h1 h2]
              · simp only [hb4, if_false]
                rw [ih f2 rest h1 h2]

/-- Decoding an ASCII byte. -/
theorem utf8Decode_ascii (b : Nat) (rest : List Nat) (h : b < 128) :
    utf8DecodeBytes (b :: rest) = Char.ofNat b :: utf8DecodeBytes rest := by
  show utf8DecodeFuel (b :: rest).length (b :: rest) = _
  simp only [List.length_cons, utf8DecodeFuel, h, if_true]
  rfl

/-- Decoding a valid two-byte sequence. -/
theorem utf8Decode_two (b b1 : Nat) (rest : List Nat)
    (hb : 194 ≤ b ∧ b ≤ 223) (hc : 128 ≤ b1 ∧ b1 ≤ 191) :
    utf8DecodeBytes (b :: b1 :: rest) =
      Char.ofNat ((b - 192) * 64 + (b1 - 128)) :: utf8DecodeBytes rest := by
  have hb1 : ¬b < 128 := by omega
  show utf8DecodeFuel (b :: b1 :: rest).length (b :: b1 :: rest) = _
  simp only [List.length_cons, utf8DecodeFuel, hb1, if_false, hb, and_self, if_true, hc]
  rw [utf8DecodeFuel_eq (rest.length + 1) rest.length rest (by omega) (Nat.le_refl _)]
  rfl

/-- Decoding a valid three-byte sequence. -/
theorem utf8Decode_three (b b1 b2 : Nat) (rest : List Nat)
    (hb : 224 ≤ b ∧ b ≤ 239)
    (hc : (utf8Cont2Lo b ≤ b1 ∧ b1 ≤ utf8Cont2Hi b) ∧ (128 ≤ b2 ∧ b2 ≤ 191)) :
    utf8DecodeBytes (b :: b1 :: b2 :: rest) =
      Char.ofNat ((b - 224) * 4096 + (b1 - 128) * 64 + (b2 - 128)) :: utf8DecodeBytes rest := by
  have hb1 : ¬b < 128 := by omega
  have hb2 : ¬(194 ≤ b ∧ b ≤ 223) := by omega
  show utf8DecodeFuel (b :: b1 :: b2 :: rest).length (b :: b1 :: b2 :: rest) = _
  simp only [List.length_cons, utf8DecodeFuel, hb1, hb2, if_false, hb, and_self, if_true, hc]
  rw [utf8DecodeFuel_eq (rest.length + 1 + 1) rest.length rest (by omega) (Nat.le_refl _)]
  rfl

/-- Decoding a valid four-byte sequence. -/
theorem utf8Decode_four (b b1 b2 b3 : Nat) (rest : List Nat)
    (hb : 240 ≤ b ∧ b ≤ 244)
    (hc : (utf8Cont3Lo b ≤ b1 ∧ b1 ≤ utf8Cont3Hi b) ∧ (128 ≤ b2 ∧ b2 ≤ 191) ∧
      (128 ≤ b3 ∧ b3 ≤ 191)) :
    utf8DecodeBytes (b :: b1 :: b2 :: b3 :: rest) =
      Char.ofNat ((b - 240) * 262144 + (b1 - 128) * 4096 + (b2 - 128) * 64 + (b3 - 128)) ::
        utf8DecodeBytes rest := by
  have hb1 : ¬b < 128 := by omega
  have hb2 : ¬(194 ≤ b ∧ b ≤ 223) := by omega
  have hb3 : ¬(224 ≤ b ∧ b ≤ 239) := by omega
  show utf8DecodeFuel (b :: b1 :: b2 :: b3 :: rest).length (b :: b1 :: b2 :: b3 :: rest) = _
  simp only [List.length_cons, utf8DecodeFuel, hb1, hb2, hb3, if_false, hb, and_self, if_true, hc]
  rw [utf8DecodeFuel_eq (rest.length + 1 + 1 + 1) rest.length rest (by omega) (Nat.le_refl _)]
  rfl

/-- Every code point is below the Unicode bound. -/
theorem char_toNat_lt (c : Char) : c.toNat < 1114112 := by
  have hv : Nat.isValidChar c.toNat := c.valid
  rcases hv with h | ⟨_, h⟩ <;> omega

/-- UTF-8 encoding produces bytes. -/
theorem utf8EncodeNat_bytes_lt (n : Nat) (h : n < 1114112) : ∀ b ∈ utf8EncodeNat n, b < 256 := by
  intro b hb
  unfold utf8EncodeNat at hb
  split_ifs at hb with h1 h2 h3 <;> fin_cases hb <;> omega

/-- Uppercase hexadecimal digits are not plus signs. -/
theorem hexDigitUpper_ne_plus : ∀ d : Nat, d < 16 → (hexDigitUpper d == '+') = false := by
  decide

/-- Plus-to-space substitution leaves percent escapes unchanged. -/
theorem percentByte_map_plus (b : Nat) (hb : b < 256) :
    (percentByte b).map (fun x => if x == '+' then ' ' else x) = percentByte b := by
  unfold percentByte
  simp only [List.map_cons, List.map_nil, hexDigitUpper_ne_plus (b / 16) (by omega),
    hexDigitUpper_ne_plus (b % 16) (by omega), Bool.false_eq_true, if_false]
  rfl

/-- The percent decoder inverts percent escaping of a byte list. -/
theorem pct_percentBytes (bs : List Nat) (hbs : ∀ b ∈ bs, b < 256) (rest : List Char) :
    pctToBytes (bs.flatMap percentByte ++ rest) = bs ++ pctToBytes rest := by
  induction bs with
  | nil => simp
  | cons b t ih =>
    have hb : b < 256 := hbs b (List.mem_cons_self b t)
    have hpb : percentByte b ++ (t.flatMap percentByte ++ rest) =
        '%' :: hexDigitUpper (b / 16) :: hexDigitUpper (b % 16) ::
          (t.flatMap percentByte ++ rest) := rfl
    rw [List.flatMap_cons, List.append_assoc, hpb,
      pctToBytes_pct _ _ _ (b / 16) (b % 16) (hexDigitVal_upper _ (by omega))
        (hexDigitVal_upper _ (by omega)),
      ih (fun x hx => hbs x (List.mem_cons_of_mem b hx))]
    have hdm : b / 16 * 16 + b % 16 = b := by omega
    rw [hdm]
    rfl

/-- Safe characters are neither plus signs nor percent signs. -/
theorem quoteSafe_ne (c : Char) (h : quoteSafe c = true) : ¬c = '+' ∧ ¬c = '%' := by
  constructor <;> intro he <;> subst he <;> exact absurd h (by decide)

/-- Behaviour of the percent decoder on one quoted character: the
original UTF-8 bytes are recovered. -/
theorem pct_quoteChar (c : Char) (rest : List Char) :
    pctToBytes ((quoteChar c).map (fun x => if x == '+' then ' ' else x) ++ rest) =
      utf8EncodeNat c.toNat ++ pctToBytes rest := by
  by_cases hsp : c = ' '
  · subst hsp
    have h1 : ((quoteChar ' ').map (fun x => if x == '+' then ' ' else x)) = [' '] := rfl
    rw [h1, List.singleton_append, pctToBytes_cons_plain ' ' rest (by decide)]
  · by_cases hsafe : quoteSafe c
    · obtain ⟨hplus, hpct⟩ := quoteSafe_ne c hsafe
      have hq : quoteChar c = [c] := by
        unfold quoteChar
        have hsp2 : (c == ' ') = false := by
          cases hq2 : c == ' '
          · rfl
          · exact absurd (eq_of_beq hq2) hsp
        simp [hsp2, hsafe]
      rw [hq]
      have h2 : ([c].map (fun x => if x == '+' then ' ' else x)) = [c] := by
        have hplus2 : (c == '+') = false := by
          cases hq2 : c == '+'
          · rfl
          · exact absurd (eq_of_beq hq2) hplus
        simp only [List.map_cons, List.map_nil, hplus2, Bool.false_eq_true, if_false]
      rw [h2, List.singleton_append, pctToBytes_cons_plain c rest hpct]
    · have hq : quoteChar c = (utf8EncodeNat c.toNat).flatMap percentByte := by
        unfold quoteChar
        have hsp2 : (c == ' ') = false := by
          cases hq2 : c == ' '
          · rfl
          · exact absurd (eq_of_beq hq2) hsp
        simp [hsp2, hsafe]
      rw [hq, List.map_flatMap]
      have hcongr : ((utf8EncodeNat c.toNat).flatMap
          fun b => (percentByte b).map (fun x => if x == '+' then ' ' else x)) =
          (utf8EncodeNat c.toNat).flatMap percentByte :=
        List.flatMap_congr fun b hb =>
          percentByte_map_plus b (utf8EncodeNat_bytes_lt _ (char_toNat_lt c) b hb)
      rw [hcongr, pct_percentBytes _ (utf8EncodeNat_bytes_lt _ (char_toNat_lt c)) rest]

/-- Decoding the UTF-8 encoding of a character recovers it. -/
theorem utf8_decode_encode (c : Char) (bs : List Nat) :
    utf8DecodeBytes (utf8EncodeNat c.toNat ++ bs) = c :: utf8DecodeBytes bs := by
  have hv : Nat.isValidChar c.toNat := c.valid
  by_cases h1 : c.toNat < 128
  · unfold utf8EncodeNat
    rw [if_pos h1, List.singleton_append, utf8Decode_ascii _ _ h1, Char.ofNat_toNat]
  · by_cases h2 : c.toNat < 2048
    · unfold utf8EncodeNat
      rw [if_neg h1, if_pos h2]
      show utf8DecodeBytes ((192 + c.toNat / 64) :: (128 + c.toNat % 64) :: bs) = _
      rw [utf8Decode_two _ _ bs (by omega) (by omega)]
      have hval : (192 + c.toNat / 64 - 192) * 64 + (128 + c.toNat % 64 - 128) = c.toNat := by
        omega
      rw [hval, Char.ofNat_toNat]
    · by_cases h3 : c.toNat < 65536
      · have hsur : c.toNat < 55296 ∨ 57343 < c.toNat := by
          rcases hv with h | ⟨h', _⟩
          · exact Or.inl (by omega)
          · exact Or.inr (by omega)
        unfold utf8EncodeNat
        rw [if_neg h1, if_neg h2, if_pos h3]
        show utf8DecodeBytes ((224 + c.toNat / 4096) :: (128 + c.toNat / 64 % 64) ::
          (128 + c.toNat % 64) :: bs) = _
        rw [utf8Decode_three _ _ _ bs (by omega) ?cont]
        case cont =>
          refine ⟨⟨?_, ?_⟩, by omega, by omega⟩
          · unfold utf8Cont2Lo
            split_ifs with he
            · omega
            · omega
          · unfold utf8Cont2Hi
            split_ifs with he
            · rcases hsur with hs | hs <;> omega
            · omega
        have hval : (224 + c.toNat / 4096 - 224) * 4096 + (128 + c.toNat / 64 % 64 - 128) * 64 +
            (128 + c.toNat % 64 - 128) = c.toNat := by
          omega
        rw [hval, Char.ofNat_toNat]
      · have h4 : c.toNat < 1114112 := char_toNat_lt c
        unfold utf8EncodeNat
        rw [if_neg h1, if_neg h2, if_neg h3]
        show utf8DecodeBytes ((240 + c.toNat / 262144) :: (128 + c.toNat / 4096 % 64) ::
          (128 + c.toNat / 64 % 64) :: (128 + c.toNat % 64) :: bs) = _
        rw [utf8Decode_four _ _ _ _ bs (by omega) ?cont4]
        case cont4 =>
          refine ⟨⟨?_, ?_⟩, by omega, by omega⟩
          · unfold utf8Cont3Lo
            split_ifs with he
            · omega
            · omega
          · unfold utf8Cont3Hi
            split_ifs with he
            · omega
            · omega
        have hval : (240 + c.toNat / 262144 - 240) * 262144 + (128 + c.toNat / 4096 % 64 - 128) *
            4096 + (128 + c.toNat / 64 % 64 - 128) * 64 + (128 + c.toNat % 64 - 128) = c.toNat := by
          omega
        rw [hval, Char.ofNat_toNat]

/-- Unquoting inverts quoting on every character list. -/
theorem unquote_quote (q : List Char) : pyUnquotePlus (pyQuotePlus q) = q := by
  induction q with
  | nil => rfl
  | cons c t ih =>
    show utf8DecodeBytes (pctToBytes
      (((c :: t).flatMap quoteChar).map (fun x => if x == '+' then ' ' else x))) = c :: t
    rw [List.flatMap_cons, List.map_append, pct_quoteChar, utf8_decode_encode]
    exact congrArg (List.cons c) ih

/-- A list starts with itself as a pattern. -/
theorem listStarts_append_self (pat r : List Char) : listStarts pat (pat ++ r) = true := by
  induction pat with
  | nil => rfl
  | cons p ps ih => simp [listStarts, ih]

/-- Replacement at an explicit pattern occurrence at the front. -/
theorem replaceSub_prefix (pat rep r : List Char) (hp : pat ≠ []) :
    replaceSub pat rep (pat ++ r) = rep ++ replaceSub pat rep r := by
  cases pat with
  | nil => exact absurd rfl hp
  | cons pc pt =>
    have hmatch := replaceSub_cons_match (pc :: pt) rep pc (pt ++ r)
      (by simp [List.isEmpty]) (by simpa using listStarts_append_self (pc :: pt) r)
    rw [show ((pc :: pt) ++ r : List Char) = pc :: (pt ++ r) from rfl, hmatch]
    congr 1
    rw [List.length_cons, List.drop_succ_cons, List.drop_left]

/-- Quoting a character never produces the empty list. -/
theorem quoteChar_ne_nil (c : Char) : quoteChar c ≠ [] := by
  unfold quoteChar
  split_ifs with h1 h2
  · simp
  · simp
  · unfold utf8EncodeNat
    split_ifs <;> simp [percentByte]

/-- The head of a percent-escaped byte list is a percent sign. -/
theorem flatMap_percent_head (bs : List Nat) (x : Char)
    (h : (bs.flatMap percentByte).head? = some x) : x = '%' := by
  cases bs with
  | nil => cases h
  | cons b t =>
    rw [List.flatMap_cons] at h
    injection h with h
    exact h.symm

/-- The last character of a percent-escaped byte list is an uppercase
hexadecimal digit. -/
theorem flatMap_percent_last (bs : List Nat) (x : Char)
    (h : (bs.flatMap percentByte).getLast? = some x) : ∃ d, d < 16 ∧ x = hexDigitUpper d := by
  induction bs with
  | nil => cases h
  | cons b t ih =>
    cases t with
    | nil =>
      rw [List.flatMap_cons] at h
      have hb : (percentByte b ++ ([] : List Nat).flatMap percentByte).getLast? =
          some (hexDigitUpper (b % 16)) := rfl
      rw [hb] at h
      injection h with h
      exact ⟨b % 16, by omega, h.symm⟩
    | cons b1 t1 =>
      rw [List.flatMap_cons, List.getLast?_append] at h
      have hne : ((b1 :: t1).flatMap percentByte) ≠ [] := by
        rw [List.flatMap_cons]
        intro hcon
        exact absurd (List.append_eq_nil.mp hcon).1 (by simp [percentByte])
      cases hB : ((b1 :: t1).flatMap percentByte).getLast? with
      | none =>
        exact absurd (List.getLast?_eq_none_iff.mp hB) hne
      | some y =>
        rw [hB] at h
        injection h with h
        subst h
        exact ih hB

/-- Uppercase hexadecimal digits are not slashes. -/
theorem hexDigitUpper_ne_slash : ∀ d : Nat, d < 16 → ¬hexDigitUpper d = '/' := by
  decide

/-- A quoted character can only start with a slash if it is a slash. -/
theorem quoteChar_head_slash (c : Char) (h : (quoteChar c).head? = some '/') : c = '/' := by
  unfold quoteChar at h
  split_ifs at h with h1 h2
  · exact absurd h (by decide)
  · injection h
  · exact absurd (flatMap_percent_head _ _ h) (by decide)

/-- A quoted character can only end with a slash if it is a slash. -/
theorem quoteChar_last_slash (c : Char) (h : (quoteChar c).getLast? = some '/') : c = '/' := by
  unfold quoteChar at h
  split_ifs at h with h1 h2
  · exact absurd h (by decide)
  · injection h
  · obtain ⟨d, hd, hx⟩ := flatMap_percent_last _ _ h
    exact absurd hx.symm (hexDigitUpper_ne_slash d hd)

/-- The two parenthesis substitutions of `encode_path` combine into the
per-character map `charRP`. -/
theorem charRP_decomp (c : Char) :
    (if c = '(' then "|28|".toList else [c]).flatMap
      (fun d => if d = ')' then "|29|".toList else [d]) = charRP c := by
  by_cases h1 : c = '('
  · subst h1; decide
  · by_cases h2 : c = ')'
    · subst h2; decide
    · rw [if_neg h1]
      simp only [List.flatMap_cons, List.flatMap_nil, List.append_nil]
      rw [if_neg h2]
      unfold charRP
      rw [if_neg h1, if_neg h2]

/-- The sequential parenthesis substitutions of `encode_path` equal one
`flatMap` over `charRP`. -/
theorem parens_encode (p : List Char) :
    replaceSub [')'] "|29|".toList (replaceSub ['('] "|28|".toList p) = p.flatMap charRP := by
  rw [replaceSub_single '(' "|28|".toList p, replaceSub_single ')' "|29|".toList
    (p.flatMap (fun c => if c = '(' then "|28|".toList else [c])), List.flatMap_assoc]
  exact List.flatMap_congr (fun c _ => charRP_decomp c)

/-- Quoting after the parenthesis substitutions is the `flatMap` of the
combined per-character map `encChar`. -/
theorem quote_flatMap_charRP (p : List Char) :
    pyQuotePlus (p.flatMap charRP) = p.flatMap encChar := by
  unfold pyQuotePlus encChar
  rw [List.flatMap_assoc]

/-- The combined per-character encoding never produces the empty list. -/
theorem encChar_ne_nil (c : Char) : encChar c ≠ [] := by
  by_cases h1 : c = '('
  · subst h1; decide
  · by_cases h2 : c = ')'
    · subst h2; decide
    · unfold encChar charRP
      rw [if_neg h1, if_neg h2]
      simp only [List.flatMap_cons, List.flatMap_nil, List.append_nil]
      exact quoteChar_ne_nil c

/-- The combined per-character encoding can only start with a slash when
the character is a slash. -/
theorem encChar_head_slash (c : Char) (h : (encChar c).head? = some '/') : c = '/' := by
  by_cases h1 : c = '('
  · subst h1; exact absurd h (by decide)
  · by_cases h2 : c = ')'
    · subst h2; exact absurd h (by decide)
    · unfold encChar charRP at h
      rw [if_neg h1, if_neg h2] at h
      simp only [List.flatMap_cons, List.flatMap_nil, List.append_nil] at h
      exact quoteChar_head_slash c h

/-- The combined per-character encoding can only end with a slash when
the character is a slash. -/
theorem encChar_last_slash (c : Char) (h : (encChar c).getLast? = some '/') : c = '/' := by
  by_cases h1 : c = '('
  · subst h1; exact absurd h (by decide)
  · by_cases h2 : c = ')'
    · subst h2; exact absurd h (by decide)
    · unfold encChar charRP at h
      rw [if_neg h1, if_neg h2] at h
      simp only [List.flatMap_cons, List.flatMap_nil, List.append_nil] at h
      exact quoteChar_last_slash c h

/-- The head of an encoded non-empty path is the head of its first
character's encoding. -/
theorem flatMap_encChar_head (c : Char) (t : List Char) :
    ((c :: t).flatMap encChar).head? = (encChar c).head? := by
  rw [List.flatMap_cons, List.head?_append]
  cases he : (encChar c).head? with
  | none => exact absurd (List.head?_eq_none_iff.mp he) (encChar_ne_nil c)
  | some x => rfl

/-- The last character of an encoded non-empty path is the last character
of its final character's encoding. -/
theorem flatMap_encChar_last : ∀ (p : List Char) (d : Char), p.getLast? = some d →
    ((p.flatMap encChar).getLast? = (encChar d).getLast?) := by
  intro p
  induction p with
  | nil => intro d hd; exact absurd hd (by simp)
  | cons c t ih =>
    intro d hd
    cases t with
    | nil =>
      simp only [List.getLast?_singleton, Option.some.injEq] at hd
      subst hd
      simp only [List.flatMap_cons, List.flatMap_nil, List.append_nil]
    | cons c2 t2 =>
      rw [List.getLast?_cons_cons] at hd
      rw [List.flatMap_cons, List.getLast?_append, ih d hd]
      cases he : (encChar d).getLast? with
      | none => exact absurd (List.getLast?_eq_none_iff.mp he) (encChar_ne_nil d)
      | some x => rfl

/-- A character other than a slash is not contained in the slash set
stripped by `encode_path`. -/
theorem contains_slash_false (x : Char) (h : ¬x = '/') :
    (['/'] : List Char).contains x = false := by
  simp [h]

/-- `dropWhile` is the identity when the head fails the test. -/
theorem dropWhile_head_false (f : Char → Bool) (l : List Char)
    (h : ∀ c, l.head? = some c → f c = false) : l.dropWhile f = l := by
  cases l with
  | nil => rfl
  | cons c t =>
    rw [List.dropWhile_cons, h c rfl]
    simp

/-- Stripping is the identity when neither end of the list lies in the
stripped set. -/
theorem stripChars_eq_self (set : List Char) (l : List Char)
    (hh : ∀ c, l.head? = some c → set.contains c = false)
    (hl : ∀ c, l.getLast? = some c → set.contains c = false) :
    stripChars set l = l := by
  unfold stripChars
  rw [dropWhile_head_false _ l hh]
  rw [dropWhile_head_false _ l.reverse (fun c hc => hl c ((List.head?_reverse l) ▸ hc))]
  exact List.reverse_reverse l

/-- One scanning step of the occurrence test. -/
theorem listOccurs_cons_eq (pat : List Char) (c : Char) (t : List Char) :
    listOccurs pat (c :: t) = (listStarts pat (c :: t) || listOccurs pat t) := rfl

/-- A hazard-free list has a hazard-free tail. -/
theorem pathHazard_cons_tail (c : Char) (t : List Char) (h : pathHazard (c :: t) = false) :
    pathHazard t = false := by
  unfold pathHazard at h ⊢
  rw [listOccurs_cons_eq, listOccurs_cons_eq] at h
  simp only [Bool.or_eq_false_iff] at h ⊢
  exact ⟨h.1.2, h.2.2⟩

/-- After a closing parenthesis of a hazard-free list, the tail does not
start with `28` followed by a parenthesis. -/
theorem pathHazard_rparen (t : List Char) (h : pathHazard (')' :: t) = false) :
    listStarts ['2', '8', '('] t = false ∧ listStarts ['2', '8', ')'] t = false := by
  unfold pathHazard at h
  rw [listOccurs_cons_eq, listOccurs_cons_eq] at h
  simp only [Bool.or_eq_false_iff] at h
  exact ⟨h.1.1, h.2.1⟩

/-- If the encoded form of a bar-free list starts with `28|`, the list
itself starts with `28` followed by a parenthesis. -/
theorem flatMap_charRP_starts_28bar (t : List Char) (hbar : '|' ∉ t)
    (h : listStarts ['2', '8', '|'] (t.flatMap charRP) = true) :
    listStarts ['2', '8', '('] t = true ∨ listStarts ['2', '8', ')'] t = true := by
  cases t with
  | nil => exact absurd h (by decide)
  | cons c1 t1 =>
    rw [List.flatMap_cons] at h
    by_cases h1p : c1 = '('
    · subst h1p
      have hf : listStarts ['2', '8', '|'] (charRP '(' ++ t1.flatMap charRP) = false := rfl
      rw [hf] at h
      exact absurd h (by decide)
    · by_cases h1q : c1 = ')'
      · subst h1q
        have hf : listStarts ['2', '8', '|'] (charRP ')' ++ t1.flatMap charRP) = false := rfl
        rw [hf] at h
        exact absurd h (by decide)
      · have hc : charRP c1 = [c1] := by unfold charRP; rw [if_neg h1p, if_neg h1q]
        rw [hc] at h
        have h1 : (('2' == c1) && listStarts ['8', '|'] (t1.flatMap charRP)) = true := h
        rw [Bool.and_eq_true] at h1
        obtain ⟨hc1, h2⟩ := h1
        have hc1e : c1 = '2' := (eq_of_beq hc1).symm
        subst hc1e
        cases t1 with
        | nil => exact absurd h2 (by decide)
        | cons c2 t2 =>
          rw [List.flatMap_cons] at h2
          by_cases h2p : c2 = '('
          · subst h2p
            have hf : listStarts ['8', '|'] (charRP '(' ++ t2.flatMap charRP) = false := rfl
            rw [hf] at h2
            exact absurd h2 (by decide)
          · by_cases h2q : c2 = ')'
            · subst h2q
              have hf : listStarts ['8', '|'] (charRP ')' ++ t2.flatMap charRP) = false := rfl
              rw [hf] at h2
              exact absurd h2 (by decide)
            · have hc : charRP c2 = [c2] := by unfold charRP; rw [if_neg h2p, if_neg h2q]
              rw [hc] at h2
              have h2a : (('8' == c2) && listStarts ['|'] (t2.flatMap charRP)) = true := h2
              rw [Bool.and_eq_true] at h2a
              obtain ⟨hc2, h3⟩ := h2a
              have hc2e : c2 = '8' := (eq_of_beq hc2).symm
              subst hc2e
              cases t2 with
              | nil => exact absurd h3 (by decide)
              | cons c3 t3 =>
                rw [List.flatMap_cons] at h3
                by_cases h3p : c3 = '('
                · subst h3p
                  left
                  rfl
                · by_cases h3q : c3 = ')'
                  · subst h3q
                    right
                    rfl
                  · have hc : charRP c3 = [c3] := by unfold charRP; rw [if_neg h3p, if_neg h3q]
                    rw [hc] at h3
                    have h3a : (('|' == c3) && listStarts ([] : List Char)
                        (t3.flatMap charRP)) = true := h3
                    rw [Bool.and_eq_true] at h3a
                    have hc3e : c3 = '|' := (eq_of_beq h3a.1).symm
                    subst hc3e
                    exact absurd (by simp) hbar

/-- The encoded form of a bar-free list without the hazard prefixes does
not start with `28|`. -/
theorem flatMap_charRP_not_28bar (t : List Char) (hbar : '|' ∉ t)
    (h1 : listStarts ['2', '8', '('] t = false) (h2 : listStarts ['2', '8', ')'] t = false) :
    listStarts ['2', '8', '|'] (t.flatMap charRP) = false := by
  cases hs : listStarts ['2', '8', '|'] (t.flatMap charRP) with
  | false => rfl
  | true =>
    rcases flatMap_charRP_starts_28bar t hbar hs with hx | hx
    · rw [h1] at hx
      exact absurd hx (by decide)
    · rw [h2] at hx
      exact absurd hx (by decide)

/-- First substitution of `decode_path` on an encoded bar-free,
hazard-free path: every `|28|` token folds back to `(`. -/
theorem decode_pass1 : ∀ p : List Char, '|' ∉ p → pathHazard p = false →
    replaceSub "|28|".toList ['('] (p.flatMap charRP) = p.flatMap charRPa := by
  intro p
  induction p with
  | nil => intro _ _; rfl
  | cons c t ih =>
    intro hbar hhaz
    have hbart : '|' ∉ t := fun hm => hbar (List.mem_cons_of_mem c hm)
    have hhazt : pathHazard t = false := pathHazard_cons_tail c t hhaz
    have hb : ('|' == c) = false := by
      rw [beq_eq_false_iff_ne]
      intro hc
      subst hc
      exact hbar (List.mem_cons_self _ t)
    by_cases hc1 : c = '('
    · subst hc1
      rw [List.flatMap_cons, List.flatMap_cons]
      rw [show charRP '(' = "|28|".toList from rfl]
      rw [ replaceSub_prefix "|28|".toList ['('] (t.flatMap charRP) (by decide)]
      rw [ih hbart hhazt]
      rfl
    · by_cases hc2 : c = ')'
      · subst hc2
        rw [List.flatMap_cons, List.flatMap_cons]
        obtain ⟨hs1, hs2⟩ := pathHazard_rparen t hhaz
        have hns : listStarts "|28|".toList ('|' :: t.flatMap charRP) = false :=
          flatMap_charRP_not_28bar t hbart hs1 hs2
        show replaceSub "|28|".toList ['('] ('|' :: '2' :: '9' :: '|' :: t.flatMap charRP) =
          '|' :: '2' :: '9' :: '|' :: t.flatMap charRPa
        rw [replaceSub_cons_nomatch "|28|".toList ['('] '|' ('2' :: '9' :: '|' :: t.flatMap charRP) rfl]
        rw [replaceSub_cons_nomatch "|28|".toList ['('] '2' ('9' :: '|' :: t.flatMap charRP) rfl]
        rw [replaceSub_cons_nomatch "|28|".toList ['('] '9' ('|' :: t.flatMap charRP) rfl]
        rw [replaceSub_cons_nomatch "|28|".toList ['('] '|' (t.flatMap charRP) hns]
        rw [ih hbart hhazt]
      · rw [List.flatMap_cons, List.flatMap_cons]
        have hcr : charRP c = [c] := by unfold charRP; rw [if_neg hc1, if_neg hc2]
        have hca : charRPa c = [c] := by unfold charRPa; rw [if_neg hc1, if_neg hc2]
        rw [hcr, hca]
        show replaceSub "|28|".toList ['('] (c :: t.flatMap charRP) = c :: t.flatMap charRPa
        have hns : listStarts "|28|".toList (c :: t.flatMap charRP) = false := by
          show (('|' == c) && listStarts ['2', '8', '|'] (t.flatMap charRP)) = false
          rw [hb, Bool.false_and]
        rw [replaceSub_cons_nomatch "|28|".toList ['('] c (t.flatMap charRP) hns]
        rw [ih hbart hhazt]

/-- Second substitution of `decode_path` on a bar-free path with the
`|28|` tokens already folded back: every `|29|` token folds to `)`. -/
theorem decode_pass2 : ∀ p : List Char, '|' ∉ p →
    replaceSub "|29|".toList [')'] (p.flatMap charRPa) = p := by
  intro p
  induction p with
  | nil => intro _; rfl
  | cons c t ih =>
    intro hbar
    have hbart : '|' ∉ t := fun hm => hbar (List.mem_cons_of_mem c hm)
    have hb : ('|' == c) = false := by
      rw [beq_eq_false_iff_ne]
      intro hc
      subst hc
      exact hbar (List.mem_cons_self _ t)
    by_cases hc2 : c = ')'
    · subst hc2
      rw [List.flatMap_cons]
      rw [show charRPa ')' = "|29|".toList from rfl]
      rw [ replaceSub_prefix "|29|".toList [')'] (t.flatMap charRPa) (by decide)]
      rw [ih hbart]
      rfl
    · by_cases hc1 : c = '('
      · subst hc1
        rw [List.flatMap_cons]
        show replaceSub "|29|".toList [')'] ('(' :: t.flatMap charRPa) = '(' :: t
        rw [replaceSub_cons_nomatch "|29|".toList [')'] '(' (t.flatMap charRPa) rfl]
        rw [ih hbart]
      · rw [List.flatMap_cons]
        have hca : charRPa c = [c] := by unfold charRPa; rw [if_neg hc1, if_neg hc2]
        rw [hca]
        show replaceSub "|29|".toList [')'] (c :: t.flatMap charRPa) = c :: t
        have hns : listStarts "|29|".toList (c :: t.flatMap charRPa) = false := by
          show (('|' == c) && listStarts ['2', '9', '|'] (t.flatMap charRPa)) = false
          rw [hb, Bool.false_and]
        rw [replaceSub_cons_nomatch "|29|".toList [')'] c (t.flatMap charRPa) hns]
        rw [ih hbart]

/-- **C9** (corrected): `decode_path (encode_path path)` is *not* the
identity on all paths containing parentheses and spaces — `encode_path`
strips leading and trailing slashes, so a path with parentheses and a
space that starts with `/` is not restored.  The corrected statement
(proved as `C9_roundtrip_on_safe_paths`) adds the necessary side
conditions.  This counterexample exhibits a path containing a parenthesis
and a space whose round trip differs from the original. -/
theorem C9_roundtrip_counterexample :
    ('(' ∈ "/a (b).jpg".toList ∧ ' ' ∈ "/a (b).jpg".toList) ∧
      decode_path (encode_path "/a (b).jpg".toList) ≠ "/a (b).jpg".toList := by
  decide

/-- **C9** (amended): for every path with no leading or trailing slash,
containing no `|` character and no occurrence of `)28` directly followed
by a parenthesis, `decode_path (encode_path path)` returns the original
path — in particular for such paths containing parentheses and spaces. -/
theorem C9_roundtrip_on_safe_paths (p : List Char)
    (hbar : '|' ∉ p) (hhaz : pathHazard p = false)
    (hhead : p.head? ≠ some '/') (hlast : p.getLast? ≠ some '/') :
    decode_path (encode_path p) = p := by
  have e1 : encode_path p = stripChars ['/'] (p.flatMap encChar) := by
    show stripChars ['/'] (pyQuotePlus (replaceSub [')'] "|29|".toList
      (replaceSub ['('] "|28|".toList p))) = _
    rw [parens_encode p, quote_flatMap_charRP p]
  have hq_head : ∀ x, (p.flatMap encChar).head? = some x →
      (['/'] : List Char).contains x = false := by
    intro x hx
    cases p with
    | nil => simp at hx
    | cons c t =>
      rw [flatMap_encChar_head c t] at hx
      refine contains_slash_false x ?_
      intro hxe
      subst hxe
      exact hhead (by rw [List.head?_cons, encChar_head_slash c hx])
  have hq_last : ∀ x, (p.flatMap encChar).getLast? = some x →
      (['/'] : List Char).contains x = false := by
    intro x hx
    cases hp : p.getLast? with
    | none =>
      rw [List.getLast?_eq_none_iff] at hp
      subst hp
      simp at hx
    | some d =>
      rw [flatMap_encChar_last p d hp] at hx
      refine contains_slash_false x ?_
      intro hxe
      subst hxe
      exact hlast ((encChar_last_slash d hx) ▸ hp)
  have e2 : stripChars ['/'] (p.flatMap encChar) = p.flatMap encChar :=
    stripChars_eq_self ['/'] (p.flatMap encChar) hq_head hq_last
  have e3 : pyUnquotePlus (p.flatMap encChar) = p.flatMap charRP := by
    rw [← quote_flatMap_charRP p]
    exact unquote_quote _
  rw [e1, e2]
  show replaceSub "|29|".toList [')'] (replaceSub "|28|".toList ['(']
    (pyUnquotePlus (p.flatMap encChar))) = p
  rw [e3, decode_pass1 p hbar hhaz, decode_pass2 p hbar]

/-- A concrete run of the corrected round trip: a path with parentheses
and spaces, no `|`, no hazard sequence and no slash at either end is
restored exactly. -/
theorem C9_roundtrip_on_safe_paths_witness :
    ('|' ∉ "photos (2021)/img 01.jpg".toList ∧
        pathHazard "photos (2021)/img 01.jpg".toList = false ∧
        "photos (2021)/img 01.jpg".toList.head? ≠ some '/' ∧
        "photos (2021)/img 01.jpg".toList.getLast? ≠ some '/') ∧
      decode_path (encode_path "photos (2021)/img 01.jpg".toList) =
        "photos (2021)/img 01.jpg".toList :=
  ⟨⟨by decide, by decide, by decide, by decide⟩,
    C9_roundtrip_on_safe_paths "photos (2021)/img 01.jpg".toList
      (by decide) (by decide) (by decide) (by decide)⟩

end Seafile
